import Mathlib

/-!
Verification model of the entitlement/assignment subsystem of the
ai-team-server repository.

The TypeScript service code (src/admin/admin.service.ts and
src/user/services/user-agent-selection.service.ts) is shallowly embedded:

* Database timestamps are modelled as integers (`Time`); `Date` values that
  may be `undefined` become `Option Time`, and fields that distinguish the
  three JS states absent / null / value become `Option (Option Time)`
  (`none` = absent/undefined, `some none` = null, `some (some t)` = a date).
* The Prisma tables AssignedAgent and AssignedGroup have the same column
  shape (AssignedAgent is keyed by (userId, agentName), AssignedGroup by
  (userId, groupId)); both are modelled by `AssignmentRow`, whose `target`
  field holds the agent name resp. the group id.
* A Prisma `findFirst` is `List.find?` on the stored rows, `update` by
  primary key rewrites the row with that id in place, and `create` appends
  a row with a fresh id.  Stored list order is creation order.
* Thrown HTTP exceptions become `Except AdminErr` results.
-/

abbrev Time := Int

/-- Milliseconds in a day; `addDays` models JS `setDate(getDate() + n)`
calendar-day addition at the abstraction level of this model. -/
def msPerDay : Int := 86400000

def addDays (t : Time) (n : Int) : Time := t + n * msPerDay

/-- A row of the AssignedAgent table (or, with `target` read as a group id,
of the AssignedGroup table).  Mirrors the Prisma model: id, userId,
agentName/groupId, startsAt (DB default now), expiresAt?, durationDays?,
isActive, createdAt. -/
structure AssignmentRow where
  id : Nat
  userId : String
  target : String
  startsAt : Time
  expiresAt : Option Time
  durationDays : Option Int
  isActive : Bool
  createdAt : Time
deriving Repr, DecidableEq

/-- A row of the AgentGroupItem table: membership of one agent in one group. -/
structure GroupItem where
  groupId : String
  agentName : String
deriving Repr, DecidableEq

/-- The options object `BaseAssignOpts` of the service: optional startsAt,
optional expiresAt (which may be an explicit null), optional durationDays,
optional isActive. -/
structure AssignOpts where
  startsAt : Option Time
  expiresAt : Option (Option Time)
  durationDays : Option Int
  isActive : Option Bool
deriving Repr, DecidableEq

/-- Result shape of `computeExpiry`: `{ startsAt?: Date; expiresAt?: Date | null }`. -/
structure ExpiryResult where
  startsAt : Option Time
  expiresAt : Option (Option Time)
deriving Repr, DecidableEq

/-- AdminService.computeExpiry (admin.service.ts lines 65-82).
`coerceDate` is the identity in this model (dates are already `Time`);
`new Date()` is the explicit `now` argument.  The TS guard
`durationDays && durationDays > 0` is false for 0, negative values, null
and undefined. -/
def computeExpiry (startsAt : Option Time) (expiresAt : Option (Option Time))
    (durationDays : Option Int) (now : Time) : ExpiryResult :=
  let s := startsAt
  match expiresAt with
  | some e => { startsAt := s, expiresAt := some e }
  | none =>
    match durationDays with
    | some d =>
      if 0 < d then
        { startsAt := s, expiresAt := some (some (addDays (s.getD now) d)) }
      else
        { startsAt := s, expiresAt := none }
    | none => { startsAt := s, expiresAt := none }

/-- The data handed to the upsert helpers after expiry resolution:
resolved startsAt, resolved expiresAt (absent = keep / null = clear /
date = set), the caller's durationDays and isActive. -/
structure WritePayload where
  startsAt : Option Time
  expiresAt : Option (Option Time)
  durationDays : Option Int
  isActive : Option Bool
deriving Repr, DecidableEq

/-- The payload every assign entry point builds: `computeExpiry` output plus
`opts.durationDays ?? null` and `opts.isActive` passed through. -/
def resolvePayload (opts : AssignOpts) (now : Time) : WritePayload :=
  let r := computeExpiry opts.startsAt opts.expiresAt opts.durationDays now
  { startsAt := r.startsAt, expiresAt := r.expiresAt,
    durationDays := opts.durationDays, isActive := opts.isActive }

/-- The database state: the AssignedAgent and AssignedGroup tables, the set
of existing AgentGroup ids, the AgentGroupItem table (in creation order),
and a fresh-id counter standing for primary-key generation. -/
structure Store where
  assignedAgents : List AssignmentRow
  assignedGroups : List AssignmentRow
  groups : List String
  groupItems : List GroupItem
  nextId : Nat
deriving Repr, DecidableEq

def Store.init (groups0 : List String) (items0 : List GroupItem) : Store :=
  { assignedAgents := [], assignedGroups := [], groups := groups0,
    groupItems := items0, nextId := 0 }

/-- Errors thrown by the service (NestJS exceptions). -/
inductive AdminErr where
  | notFound
  | badRequest
deriving Repr, DecidableEq

/-- The `where: { userId, agentName/groupId, isActive: true }` filter. -/
def activeFor (u a : String) (r : AssignmentRow) : Bool :=
  r.userId == u && r.target == a && r.isActive

/-- `findFirst({ where: { userId, target, isActive: true } })`. -/
def findFirstActive (rows : List AssignmentRow) (u a : String) :
    Option AssignmentRow :=
  rows.find? (activeFor u a)

/-- `update({ where: { id } , data })`: rewrite the row with primary key `i`
in place (ids are unique in a well-formed store). -/
def updateById (i : Nat) (g : AssignmentRow → AssignmentRow)
    (rows : List AssignmentRow) : List AssignmentRow :=
  rows.map fun r => if r.id = i then g r else r

/-- The update `data` object of the upsert helpers, applied to the found
active row: `startsAt ?? existing.startsAt`, expiresAt only when supplied
(null clears), `durationDays ?? existing.durationDays`, isActive only when
a boolean was supplied. -/
def applyWrite (w : WritePayload) (r : AssignmentRow) : AssignmentRow :=
  { r with
    startsAt := w.startsAt.getD r.startsAt
    expiresAt :=
      match w.expiresAt with
      | some e => e
      | none => r.expiresAt
    durationDays :=
      match w.durationDays with
      | some d => some d
      | none => r.durationDays
    isActive := w.isActive.getD r.isActive }

/-- The create `data` object of the upsert helpers: fresh id, DB defaults
`startsAt = now()`, `expiresAt = null`, `durationDays = null`,
`isActive = true` when not supplied. -/
def createRow (i : Nat) (u a : String) (w : WritePayload) (now : Time) :
    AssignmentRow :=
  { id := i, userId := u, target := a,
    startsAt := w.startsAt.getD now,
    expiresAt := w.expiresAt.getD none,
    durationDays := w.durationDays,
    isActive := w.isActive.getD true,
    createdAt := now }

/-- AdminService.upsertActiveAssignment / upsertActiveGroupAssignment
(admin.service.ts lines 92-168): look up an active row for the pair; if
found, update it in place; otherwise create a new row. -/
def upsertActive (rows : List AssignmentRow) (nid : Nat) (u a : String)
    (w : WritePayload) (now : Time) : List AssignmentRow × Nat :=
  match findFirstActive rows u a with
  | some r0 => (updateById r0.id (fun _ => applyWrite w r0) rows, nid)
  | none => (rows ++ [createRow nid u a w now], nid + 1)

/-- AdminService.assignAgentByEmail, after user resolution. -/
def assignAgent (st : Store) (u a : String) (opts : AssignOpts) (now : Time) :
    Store :=
  let p := upsertActive st.assignedAgents st.nextId u a
    (resolvePayload opts now) now
  { st with assignedAgents := p.1, nextId := p.2 }

def assignStep (u : String) (w : WritePayload) (now : Time) (st : Store)
    (a : String) : Store :=
  let p := upsertActive st.assignedAgents st.nextId u a w now
  { st with assignedAgents := p.1, nextId := p.2 }

/-- AdminService.assignAgentsByEmail (admin.service.ts lines 216-269):
expiry is resolved once, then each agent name is upserted in turn inside
one transaction. -/
def assignAgents (st : Store) (u : String) (names : List String)
    (opts : AssignOpts) (now : Time) : Store :=
  let w := resolvePayload opts now
  names.foldl (assignStep u w now) st

/-- AdminService.upsertActiveGroupAssignment lifted to the store. -/
def upsertGroupAssignment (st : Store) (u g : String) (w : WritePayload)
    (now : Time) : Store :=
  let p := upsertActive st.assignedGroups st.nextId u g w now
  { st with assignedGroups := p.1, nextId := p.2 }

/-- Agent names of a group's membership rows, in creation order. -/
def membersOf (items : List GroupItem) (g : String) : List String :=
  (items.filter fun it => it.groupId == g).map GroupItem.agentName

def memberNames (st : Store) (g : String) : List String :=
  membersOf st.groupItems g

/-- First-occurrence deduplication with a seen set, as in
UserAgentSelectionService.dedupe and `Array.from(new Set(...))`. -/
def dedupeAux (seen : List String) : List String → List String
  | [] => []
  | a :: rest =>
    if a ∈ seen then dedupeAux seen rest
    else a :: dedupeAux (a :: seen) rest

def dedupe (l : List String) : List String := dedupeAux [] l

/-- AdminService.getGroupAgentNames: members in creation order, deduped;
BadRequest (here `none`) when the group has no membership rows. -/
def getGroupAgentNames (st : Store) (g : String) : Option (List String) :=
  if (memberNames st g).isEmpty then none
  else some (dedupe (memberNames st g))

/-- AdminService.assignAgentGroupByEmail, after user resolution: resolve
the group (no-op here if the id is unknown), read the member names
(BadRequest stops before any write when empty), upsert the AssignedGroup
row, then materialize a per-agent upsert for every member. -/
def assignGroup (st : Store) (u g : String) (opts : AssignOpts) (now : Time) :
    Store :=
  if g ∈ st.groups then
    match getGroupAgentNames st g with
    | none => st
    | some names =>
      let w := resolvePayload opts now
      let st1 := upsertGroupAssignment st u g w now
      names.foldl (assignStep u w now) st1
  else st

/-- The selector loop of AdminService.assignAgentGroupsByEmail: for each
group, resolve it (a failed resolve aborts, keeping earlier writes), upsert
its AssignedGroup row, then read its members (an empty group aborts after
that row was already written).  Returns the store after the group-row
writes and the concatenated member lists, or `none` on abort. -/
def assignGroupsLoop (u : String) (w : WritePayload) (now : Time) :
    Store → List String → Store × Option (List String)
  | st, [] => (st, some [])
  | st, g :: rest =>
    if g ∈ st.groups then
      let st1 := upsertGroupAssignment st u g w now
      match getGroupAgentNames st1 g with
      | none => (st1, none)
      | some names =>
        match assignGroupsLoop u w now st1 rest with
        | (st2, none) => (st2, none)
        | (st2, some ns) => (st2, some (names ++ ns))
    else (st, none)

/-- AdminService.assignAgentGroupsByEmail (admin.service.ts lines 588-630):
upsert an AssignedGroup row per selector while accumulating the merged
(set-union) member names, then run one bulk direct-assignment upsert over
the deduplicated union. -/
def assignGroups (st : Store) (u : String) (gs : List String)
    (opts : AssignOpts) (now : Time) : Store :=
  let w := resolvePayload opts now
  match assignGroupsLoop u w now st gs with
  | (st1, none) => st1
  | (st1, some names) =>
    let agentNames := dedupe names
    if agentNames.isEmpty then st1
    else assignAgents st1 u agentNames opts now

/-- AdminService.deactivateAgentByEmail (admin.service.ts lines 272-284):
find the active row for the pair; NotFound if there is none; otherwise set
its isActive to false (the row is not deleted). -/
def deactivateAgent (st : Store) (u a : String) : Except AdminErr Store :=
  match findFirstActive st.assignedAgents u a with
  | none => .error .notFound
  | some r0 =>
    let rows := updateById r0.id (fun _ => { r0 with isActive := false })
      st.assignedAgents
    .ok { st with assignedAgents := rows }

/-- AdminService.deactivateGroupByEmail (admin.service.ts lines 771-787):
same as agent deactivation, on the AssignedGroup table. -/
def deactivateGroup (st : Store) (u g : String) : Except AdminErr Store :=
  match findFirstActive st.assignedGroups u g with
  | none => .error .notFound
  | some r0 =>
    let rows := updateById r0.id (fun _ => { r0 with isActive := false })
      st.assignedGroups
    .ok { st with assignedGroups := rows }

/-- Does the AgentGroupItem table contain the (group, agent) pair? -/
def itemMem (items : List GroupItem) (g a : String) : Bool :=
  items.any fun it => it.groupId == g && it.agentName == a

/-- `createMany(..., skipDuplicates: true)` on AgentGroupItem: insert each
named pair unless it is already present, counting actual insertions. -/
def insertMissing (g : String) (items : List GroupItem) :
    List String → List GroupItem × Nat
  | [] => (items, 0)
  | a :: rest =>
    if itemMem items g a then insertMissing g items rest
    else
      let p := insertMissing g (items ++ [⟨g, a⟩]) rest
      (p.1, p.2 + 1)

/-- AdminService.addAgentsToGroup (admin.service.ts lines 410-425):
NotFound for an unknown group; dedupe the input; an empty deduped input
returns count 0 with no write; otherwise insert the missing pairs with
skip-duplicates semantics and return the inserted count. -/
def addAgentsToGroup (st : Store) (g : String) (names : List String) :
    Except AdminErr (Store × Nat) :=
  if g ∈ st.groups then
    let unique := dedupe names
    if unique.isEmpty then .ok (st, 0)
    else
      let p := insertMissing g st.groupItems unique
      .ok ({ st with groupItems := p.1 }, p.2)
  else .error .notFound

/-- AdminService.replaceGroupAgents (admin.service.ts lines 449-473):
NotFound for an unknown group; dedupe the input; in one transaction delete
every member of the group not in the new set (all members when the new set
is empty), then insert the missing pairs with skip-duplicates semantics. -/
def replaceGroupAgents (st : Store) (g : String) (names : List String) :
    Except AdminErr Store :=
  if g ∈ st.groups then
    let next := dedupe names
    let afterDel :=
      if next.isEmpty then
        st.groupItems.filter fun it => !(it.groupId == g)
      else
        st.groupItems.filter fun it =>
          !(it.groupId == g && !(next.contains it.agentName))
    let afterIns :=
      if next.isEmpty then afterDel else (insertMissing g afterDel next).1
    .ok { st with groupItems := afterIns }
  else .error .notFound

/-- The `where` filter of getSelectedAgentsByEmail:
isActive true and (expiresAt null or strictly greater than now). -/
def selectedPred (u : String) (now : Time) (r : AssignmentRow) : Bool :=
  r.userId == u && r.isActive &&
    (match r.expiresAt with
     | none => true
     | some e => decide (now < e))

/-- AdminService.getSelectedAgentsByEmail (admin.service.ts lines 296-312):
filter to active, unexpired rows of the user, order by createdAt
descending, return the agent names. -/
def getSelectedAgents (st : Store) (u : String) (now : Time) : List String :=
  (((st.assignedAgents.filter (selectedPred u now)).mergeSort
      fun r1 r2 => r2.createdAt ≤ r1.createdAt).map AssignmentRow.target)

/-- The AgentName catalog (`Object.values(AgentName)`), mirrored from the
Prisma enum: 15 agents plus their 15 test variants. -/
def agentCatalog : List String :=
  ["JIM", "ALEX", "MIKE", "TONY", "LARA", "VALENTINA", "DANIELE", "SIMONE",
   "NIKO", "ALADINO", "LAURA", "DAN", "MAX", "SOFIA", "ROBERTA",
   "TEST_JIM", "TEST_ALEX", "TEST_MIKE", "TEST_TONY", "TEST_LARA",
   "TEST_VALENTINA", "TEST_DANIELE", "TEST_SIMONE", "TEST_NIKO",
   "TEST_ALADINO", "TEST_LAURA", "TEST_DAN", "TEST_MAX", "TEST_SOFIA",
   "TEST_ROBERTA"]

/-- JS `trim()` on the character list: drop whitespace from both ends. -/
def trimChars (cs : List Char) : List Char :=
  ((cs.dropWhile Char.isWhitespace).reverse.dropWhile Char.isWhitespace).reverse

/-- `String(v).trim().toUpperCase()` of
UserAgentSelectionService.validateAndNormalize, modelled per character. -/
def normalizeAgent (s : String) : String :=
  String.mk ((trimChars s.toList).map Char.toUpper)

/-- The list update of UserAgentSelectionService.toggleAgent: remove every
occurrence when the normalized name is present, else append it and dedupe. -/
def toggleList (current : List String) (n : String) : List String :=
  if n ∈ current then current.filter fun a => a != n
  else dedupe (current ++ [n])

/-- UserAgentSelectionService.toggleAgent / toggleAgentByEmail: normalize
and validate the input against the catalog (BadRequest when invalid), then
toggle it in the stored selectedAgents list. -/
def toggleAgentService (current : List String) (raw : String) :
    Except AdminErr (List String) :=
  let n := normalizeAgent raw
  if n ∈ agentCatalog then .ok (toggleList current n) else .error .badRequest

/-- The admin operations of the assignment subsystem, for reasoning about
arbitrary sequences of non-concurrent calls. -/
inductive AdminOp where
  | assignAgentOp (u a : String) (opts : AssignOpts) (now : Time)
  | assignAgentsOp (u : String) (names : List String) (opts : AssignOpts)
      (now : Time)
  | assignGroupOp (u g : String) (opts : AssignOpts) (now : Time)
  | assignGroupsOp (u : String) (gs : List String) (opts : AssignOpts)
      (now : Time)
  | deactivateAgentOp (u a : String)
  | deactivateGroupOp (u g : String)
  | createGroupOp (g : String)
  | addGroupAgentsOp (g : String) (names : List String)
  | replaceGroupAgentsOp (g : String) (names : List String)
deriving Repr

/-- One service call against the store; a thrown exception leaves the
store as the service left it (deactivation throws before any write). -/
def applyOp (st : Store) : AdminOp → Store
  | .assignAgentOp u a opts now => assignAgent st u a opts now
  | .assignAgentsOp u names opts now => assignAgents st u names opts now
  | .assignGroupOp u g opts now => assignGroup st u g opts now
  | .assignGroupsOp u gs opts now => assignGroups st u gs opts now
  | .deactivateAgentOp u a =>
    match deactivateAgent st u a with
    | .ok st1 => st1
    | .error _ => st
  | .deactivateGroupOp u g =>
    match deactivateGroup st u g with
    | .ok st1 => st1
    | .error _ => st
  | .createGroupOp g =>
    if g ∈ st.groups then st else { st with groups := st.groups ++ [g] }
  | .addGroupAgentsOp g names =>
    match addAgentsToGroup st g names with
    | .ok p => p.1
    | .error _ => st
  | .replaceGroupAgentsOp g names =>
    match replaceGroupAgents st g names with
    | .ok st1 => st1
    | .error _ => st

/-- Number of active rows stored for a (user, target) pair. -/
def countActive (rows : List AssignmentRow) (u a : String) : Nat :=
  rows.countP (activeFor u a)

/-- Well-formedness of one table: primary keys are distinct and below the
fresh-id counter. -/
def rowsWF (rows : List AssignmentRow) (nid : Nat) : Prop :=
  (rows.map AssignmentRow.id).Nodup ∧ ∀ r ∈ rows, r.id < nid

/-- Well-formedness of the store. -/
def StoreWF (st : Store) : Prop :=
  rowsWF st.assignedAgents st.nextId ∧ rowsWF st.assignedGroups st.nextId

/-- The at-most-one-active invariant for both assignment tables. -/
def StoreInv (st : Store) : Prop :=
  (∀ u a, countActive st.assignedAgents u a ≤ 1) ∧
  (∀ u g, countActive st.assignedGroups u g ≤ 1)

theorem applyWrite_id (w : WritePayload) (r : AssignmentRow) :
    (applyWrite w r).id = r.id := rfl

theorem applyWrite_userId (w : WritePayload) (r : AssignmentRow) :
    (applyWrite w r).userId = r.userId := rfl

theorem applyWrite_target (w : WritePayload) (r : AssignmentRow) :
    (applyWrite w r).target = r.target := rfl

theorem applyWrite_isActive (w : WritePayload) (r : AssignmentRow) :
    (applyWrite w r).isActive = w.isActive.getD r.isActive := rfl

theorem activeFor_eq_true_iff (u a : String) (r : AssignmentRow) :
    activeFor u a r = true ↔ r.userId = u ∧ r.target = a ∧ r.isActive = true := by
  simp [activeFor, Bool.and_eq_true, beq_iff_eq, and_assoc]

theorem updateById_nil (i : Nat) (g : AssignmentRow → AssignmentRow) :
    updateById i g [] = [] := rfl

theorem updateById_cons (i : Nat) (g : AssignmentRow → AssignmentRow)
    (r : AssignmentRow) (rs : List AssignmentRow) :
    updateById i g (r :: rs)
      = (if r.id = i then g r else r) :: updateById i g rs := by
  simp only [updateById, List.map_cons]

theorem updateById_of_forall_ne (i : Nat) (g : AssignmentRow → AssignmentRow)
    (rows : List AssignmentRow) (h : ∀ r ∈ rows, r.id ≠ i) :
    updateById i g rows = rows := by
  induction rows with
  | nil => rfl
  | cons r rs ih =>
    rw [updateById_cons, if_neg (h r (List.mem_cons_self r rs)),
      ih fun x hx => h x (List.mem_cons_of_mem r hx)]

theorem map_id_updateById (i : Nat) (g : AssignmentRow → AssignmentRow)
    (rows : List AssignmentRow) (hg : ∀ r, r.id = i → (g r).id = i) :
    (updateById i g rows).map AssignmentRow.id = rows.map AssignmentRow.id := by
  induction rows with
  | nil => rfl
  | cons r rs ih =>
    rw [updateById_cons, List.map_cons, List.map_cons, ih]
    by_cases h : r.id = i
    · rw [if_pos h, hg r h, h]
    · rw [if_neg h]

theorem countP_updateById (p : AssignmentRow → Bool) (r0 gRow : AssignmentRow)
    (rows : List AssignmentRow) (hmem : r0 ∈ rows)
    (hnd : (rows.map AssignmentRow.id).Nodup) :
    (updateById r0.id (fun _ => gRow) rows).countP p
        + (if p r0 then 1 else 0)
      = rows.countP p + (if p gRow then 1 else 0) := by
  induction rows with
  | nil => cases hmem
  | cons r rs ih =>
    simp only [List.map_cons, List.nodup_cons] at hnd
    rw [updateById_cons, List.countP_cons, List.countP_cons]
    rcases List.mem_cons.mp hmem with heq | htail
    · subst heq
      rw [if_pos rfl]
      have hrs : ∀ x ∈ rs, x.id ≠ r0.id := by
        intro x hx hcontra
        exact hnd.1 (hcontra ▸ List.mem_map_of_mem AssignmentRow.id hx)
      rw [updateById_of_forall_ne r0.id (fun _ => gRow) rs hrs]
      omega
    · have hne : r.id ≠ r0.id := by
        intro hcontra
        exact hnd.1 (hcontra ▸ List.mem_map_of_mem AssignmentRow.id htail)
      rw [if_neg hne]
      have h2 := ih htail hnd.2
      omega

theorem find_updateById (q : AssignmentRow → Bool) (r0 gRow : AssignmentRow)
    (hq : q gRow = true) (rows : List AssignmentRow)
    (hf : rows.find? q = some r0)
    (hnd : (rows.map AssignmentRow.id).Nodup) :
    (updateById r0.id (fun _ => gRow) rows).find? q = some gRow := by
  induction rows with
  | nil => cases hf
  | cons r rs ih =>
    simp only [List.map_cons, List.nodup_cons] at hnd
    rw [List.find?_cons] at hf
    rw [updateById_cons]
    cases hqr : q r with
    | true =>
      rw [hqr] at hf
      simp only [Option.some.injEq] at hf
      subst hf
      rw [if_pos rfl, List.find?_cons, hq]
    | false =>
      rw [hqr] at hf
      have htail : r0 ∈ rs := List.mem_of_find?_eq_some hf
      have hne : r.id ≠ r0.id := by
        intro hcontra
        exact hnd.1 (hcontra ▸ List.mem_map_of_mem AssignmentRow.id htail)
      rw [if_neg hne, List.find?_cons, hqr]
      exact ih hf hnd.2

theorem find_append_singleton (q : AssignmentRow → Bool) (x : AssignmentRow)
    (hx : q x = true) (rows : List AssignmentRow)
    (hf : rows.find? q = none) :
    (rows ++ [x]).find? q = some x := by
  induction rows with
  | nil => simp [List.find?_cons, hx]
  | cons r rs ih =>
    rw [List.find?_cons] at hf
    cases hqr : q r with
    | true => rw [hqr] at hf; cases hf
    | false =>
      rw [hqr] at hf
      rw [List.cons_append, List.find?_cons, hqr]
      exact ih hf

theorem countP_append_singleton (p : AssignmentRow → Bool)
    (rows : List AssignmentRow) (x : AssignmentRow) :
    (rows ++ [x]).countP p = rows.countP p + (if p x then 1 else 0) := by
  rw [List.countP_append]
  simp [List.countP_cons]

theorem activeFor_other_false (u a u' a' : String) (r : AssignmentRow)
    (hu : r.userId = u) (ht : r.target = a) (hne : ¬(u = u' ∧ a = a')) :
    activeFor u' a' r = false := by
  rcases Bool.eq_false_or_eq_true (activeFor u' a' r) with h | h
  · obtain ⟨h1, h2, _⟩ := (activeFor_eq_true_iff u' a' r).mp h
    exact absurd ⟨hu.symm.trans h1, ht.symm.trans h2⟩ hne
  · exact h

theorem upsert_wf (rows : List AssignmentRow) (nid : Nat) (u a : String)
    (w : WritePayload) (now : Time) (hwf : rowsWF rows nid) :
    rowsWF (upsertActive rows nid u a w now).1
        (upsertActive rows nid u a w now).2
      ∧ nid ≤ (upsertActive rows nid u a w now).2 := by
  obtain ⟨hnd, hlt⟩ := hwf
  cases hf : findFirstActive rows u a with
  | some r0 =>
    simp only [upsertActive, hf]
    have hmem : r0 ∈ rows := List.mem_of_find?_eq_some hf
    refine ⟨⟨?_, ?_⟩, le_refl nid⟩
    · rw [map_id_updateById]
      · exact hnd
      · exact fun r _ => applyWrite_id w r0
    · intro r' hr'
      simp only [updateById, List.mem_map] at hr'
      obtain ⟨r, hr, hr'eq⟩ := hr'
      by_cases h : r.id = r0.id
      · rw [← hr'eq, if_pos h]
        exact hlt r0 hmem
      · rw [← hr'eq, if_neg h]
        exact hlt r hr
  | none =>
    simp only [upsertActive, hf]
    refine ⟨⟨?_, ?_⟩, Nat.le_succ nid⟩
    · rw [List.map_append, List.nodup_append]
      refine ⟨hnd, List.nodup_singleton _, ?_⟩
      intro x hx hx2
      simp only [List.map_cons, List.map_nil, List.mem_singleton] at hx2
      obtain ⟨r, hr, hrx⟩ := List.mem_map.mp hx
      have hbound := hlt r hr
      have hxnid : x = nid := hx2
      omega
    · intro r' hr'
      rcases List.mem_append.mp hr' with h | h
      · exact Nat.lt_succ_of_lt (hlt r' h)
      · simp only [List.mem_singleton] at h
        subst h
        exact Nat.lt_succ_self nid

theorem upsert_count_same (rows : List AssignmentRow) (nid : Nat)
    (u a : String) (w : WritePayload) (now : Time) (hwf : rowsWF rows nid)
    (hle : countActive rows u a ≤ 1) :
    countActive (upsertActive rows nid u a w now).1 u a
      = (if w.isActive.getD true then 1 else 0) := by
  cases hf : findFirstActive rows u a with
  | some r0 =>
    simp only [upsertActive, hf]
    have hq : activeFor u a r0 = true := List.find?_some hf
    obtain ⟨hu, ht, hact⟩ := (activeFor_eq_true_iff u a r0).mp hq
    have hmem : r0 ∈ rows := List.mem_of_find?_eq_some hf
    have hpos : 0 < rows.countP (activeFor u a) :=
      List.countP_pos_iff.mpr ⟨r0, hmem, hq⟩
    have hcnt := countP_updateById (activeFor u a) r0 (applyWrite w r0) rows
      hmem hwf.1
    have hg : activeFor u a (applyWrite w r0) = (w.isActive.getD true) := by
      have : (applyWrite w r0).isActive = w.isActive.getD true := by
        rw [applyWrite_isActive, hact]
      simp [activeFor, applyWrite_userId, applyWrite_target, hu, ht, this]
    unfold countActive at hle ⊢
    rw [hq] at hcnt
    rw [hg] at hcnt
    cases hb : w.isActive.getD true with
    | true =>
      rw [hb] at hcnt
      simp at hcnt ⊢
      exact hcnt.trans (Nat.le_antisymm hle hpos)
    | false =>
      rw [hb] at hcnt
      have hB : List.countP (activeFor u a) rows = 1 :=
        Nat.le_antisymm hle hpos
      rw [if_pos rfl, if_neg Bool.false_ne_true, hB] at hcnt
      rw [if_neg Bool.false_ne_true]
      exact Nat.succ_injective (by simpa using hcnt)
  | none =>
    simp only [upsertActive, hf]
    have hzero : rows.countP (activeFor u a) = 0 := by
      rw [List.countP_eq_zero]
      intro x hx
      have := List.find?_eq_none.mp hf x hx
      simpa using this
    have hnew : activeFor u a (createRow nid u a w now)
        = (w.isActive.getD true) := by
      simp [activeFor, createRow]
    unfold countActive
    rw [countP_append_singleton, hzero, hnew]
    cases hb : w.isActive.getD true with
    | true => simp
    | false => simp

theorem upsert_count_le_one (rows : List AssignmentRow) (nid : Nat)
    (u a : String) (w : WritePayload) (now : Time) (hwf : rowsWF rows nid)
    (hle : countActive rows u a ≤ 1) :
    countActive (upsertActive rows nid u a w now).1 u a ≤ 1 := by
  rw [upsert_count_same rows nid u a w now hwf hle]
  cases w.isActive.getD true <;> simp

theorem upsert_count_other (rows : List AssignmentRow) (nid : Nat)
    (u a : String) (w : WritePayload) (now : Time) (u' a' : String)
    (hwf : rowsWF rows nid) (hne : ¬(u = u' ∧ a = a')) :
    countActive (upsertActive rows nid u a w now).1 u' a'
      = countActive rows u' a' := by
  cases hf : findFirstActive rows u a with
  | some r0 =>
    simp only [upsertActive, hf]
    have hq : activeFor u a r0 = true := List.find?_some hf
    obtain ⟨hu, ht, _⟩ := (activeFor_eq_true_iff u a r0).mp hq
    have hmem : r0 ∈ rows := List.mem_of_find?_eq_some hf
    have hcnt := countP_updateById (activeFor u' a') r0 (applyWrite w r0) rows
      hmem hwf.1
    have h1 : activeFor u' a' r0 = false :=
      activeFor_other_false u a u' a' r0 hu ht hne
    have h2 : activeFor u' a' (applyWrite w r0) = false := by
      refine activeFor_other_false u a u' a' (applyWrite w r0) ?_ ?_ hne
      · rw [applyWrite_userId, hu]
      · rw [applyWrite_target, ht]
    rw [h1, h2] at hcnt
    unfold countActive
    omega
  | none =>
    simp only [upsertActive, hf]
    have hnew : activeFor u' a' (createRow nid u a w now) = false := by
      refine activeFor_other_false u a u' a' (createRow nid u a w now)
        rfl rfl hne
    unfold countActive
    rw [countP_append_singleton, hnew]
    simp

/-- Well-formedness plus the at-most-one-active invariant. -/
def GoodStore (st : Store) : Prop := StoreWF st ∧ StoreInv st

theorem rowsWF_mono (rows : List AssignmentRow) (n m : Nat)
    (h : rowsWF rows n) (hnm : n ≤ m) : rowsWF rows m :=
  ⟨h.1, fun r hr => Nat.lt_of_lt_of_le (h.2 r hr) hnm⟩

theorem rowsWF_updateById (rows : List AssignmentRow) (nid : Nat)
    (r0 gRow : AssignmentRow) (hmem : r0 ∈ rows) (hgid : gRow.id = r0.id)
    (hwf : rowsWF rows nid) :
    rowsWF (updateById r0.id (fun _ => gRow) rows) nid := by
  constructor
  · rw [map_id_updateById]
    · exact hwf.1
    · exact fun r _ => hgid
  · intro r' hr'
    simp only [updateById, List.mem_map] at hr'
    obtain ⟨r, hr, hr'eq⟩ := hr'
    by_cases hcase : r.id = r0.id
    · rw [← hr'eq, if_pos hcase]
      exact hgid ▸ hwf.2 r0 hmem
    · rw [← hr'eq, if_neg hcase]
      exact hwf.2 r hr

theorem good_assignStep (u : String) (w : WritePayload) (now : Time)
    (st : Store) (a : String) (h : GoodStore st) :
    GoodStore (assignStep u w now st a) := by
  obtain ⟨⟨hwa, hwg⟩, ⟨hia, hig⟩⟩ := h
  have hup := upsert_wf st.assignedAgents st.nextId u a w now hwa
  refine ⟨⟨hup.1, rowsWF_mono _ _ _ hwg hup.2⟩, ?_, ?_⟩
  · intro u' a'
    by_cases hcase : u = u' ∧ a = a'
    · obtain ⟨rfl, rfl⟩ := hcase
      exact upsert_count_le_one st.assignedAgents st.nextId u a w now hwa
        (hia u a)
    · have heq : countActive (assignStep u w now st a).assignedAgents u' a'
          = countActive st.assignedAgents u' a' :=
        upsert_count_other st.assignedAgents st.nextId u a w now u' a' hwa
          hcase
      rw [heq]
      exact hia u' a'
  · intro u' g'
    exact hig u' g'

theorem assignStep_nextId_le (u : String) (w : WritePayload) (now : Time)
    (st : Store) (a : String) (hwa : rowsWF st.assignedAgents st.nextId) :
    st.nextId ≤ (assignStep u w now st a).nextId :=
  (upsert_wf st.assignedAgents st.nextId u a w now hwa).2

theorem good_foldl_assign (u : String) (w : WritePayload) (now : Time) :
    ∀ (names : List String) (st : Store), GoodStore st →
      GoodStore (names.foldl (assignStep u w now) st)
  | [], _, h => h
  | a :: rest, st, h =>
    good_foldl_assign u w now rest (assignStep u w now st a)
      (good_assignStep u w now st a h)

theorem good_upsertGroup (st : Store) (u g : String) (w : WritePayload)
    (now : Time) (h : GoodStore st) :
    GoodStore (upsertGroupAssignment st u g w now) := by
  obtain ⟨⟨hwa, hwg⟩, ⟨hia, hig⟩⟩ := h
  have hup := upsert_wf st.assignedGroups st.nextId u g w now hwg
  refine ⟨⟨rowsWF_mono _ _ _ hwa hup.2, hup.1⟩, ?_, ?_⟩
  · intro u' a'
    exact hia u' a'
  · intro u' g'
    by_cases hcase : u = u' ∧ g = g'
    · obtain ⟨rfl, rfl⟩ := hcase
      exact upsert_count_le_one st.assignedGroups st.nextId u g w now hwg
        (hig u g)
    · have heq : countActive (upsertGroupAssignment st u g w now).assignedGroups u' g'
          = countActive st.assignedGroups u' g' :=
        upsert_count_other st.assignedGroups st.nextId u g w now u' g' hwg
          hcase
      rw [heq]
      exact hig u' g'

theorem good_assignAgent (st : Store) (u a : String) (opts : AssignOpts)
    (now : Time) (h : GoodStore st) :
    GoodStore (assignAgent st u a opts now) :=
  good_assignStep u (resolvePayload opts now) now st a h

theorem good_assignAgents (st : Store) (u : String) (names : List String)
    (opts : AssignOpts) (now : Time) (h : GoodStore st) :
    GoodStore (assignAgents st u names opts now) :=
  good_foldl_assign u (resolvePayload opts now) now names st h

theorem good_assignGroup (st : Store) (u g : String) (opts : AssignOpts)
    (now : Time) (h : GoodStore st) :
    GoodStore (assignGroup st u g opts now) := by
  unfold assignGroup
  by_cases hg : g ∈ st.groups
  · rw [if_pos hg]
    cases hnames : getGroupAgentNames st g with
    | none => exact h
    | some names =>
      exact good_foldl_assign u (resolvePayload opts now) now names
        (upsertGroupAssignment st u g (resolvePayload opts now) now)
        (good_upsertGroup st u g (resolvePayload opts now) now h)
  · rw [if_neg hg]
    exact h

theorem good_assignGroupsLoop (u : String) (w : WritePayload) (now : Time) :
    ∀ (gs : List String) (st : Store), GoodStore st →
      GoodStore (assignGroupsLoop u w now st gs).1 := by
  intro gs
  induction gs with
  | nil => intro st h; exact h
  | cons g rest ih =>
    intro st h
    by_cases hg : g ∈ st.groups
    · have h1 := good_upsertGroup st u g w now h
      cases hnames : getGroupAgentNames (upsertGroupAssignment st u g w now) g with
      | none =>
        simp only [assignGroupsLoop, if_pos hg, hnames]
        exact h1
      | some names =>
        have h2 := ih (upsertGroupAssignment st u g w now) h1
        cases hres : assignGroupsLoop u w now
            (upsertGroupAssignment st u g w now) rest with
        | mk st2 o =>
          rw [hres] at h2
          cases o with
          | none =>
            simp only [assignGroupsLoop, if_pos hg, hnames, hres]
            exact h2
          | some ns =>
            simp only [assignGroupsLoop, if_pos hg, hnames, hres]
            exact h2
    · simp only [assignGroupsLoop, if_neg hg]
      exact h

theorem good_assignGroups (st : Store) (u : String) (gs : List String)
    (opts : AssignOpts) (now : Time) (h : GoodStore st) :
    GoodStore (assignGroups st u gs opts now) := by
  have hloop := good_assignGroupsLoop u (resolvePayload opts now) now gs st h
  cases hres : assignGroupsLoop u (resolvePayload opts now) now st gs with
  | mk st1 o =>
    rw [hres] at hloop
    cases o with
    | none =>
      simp only [assignGroups, hres]
      exact hloop
    | some names =>
      by_cases he : (dedupe names).isEmpty
      · simp only [assignGroups, hres, if_pos he]
        exact hloop
      · simp only [assignGroups, hres, if_neg he]
        exact good_assignAgents st1 u (dedupe names) opts now hloop

theorem countP_deactivate_other (rows : List AssignmentRow) (nid : Nat)
    (u a u' a' : String) (r0 : AssignmentRow)
    (hf : findFirstActive rows u a = some r0) (hwf : rowsWF rows nid)
    (hne : ¬(u = u' ∧ a = a')) :
    countActive (updateById r0.id (fun _ => { r0 with isActive := false })
        rows) u' a'
      = countActive rows u' a' := by
  have hq : activeFor u a r0 = true := List.find?_some hf
  obtain ⟨hu, ht, _⟩ := (activeFor_eq_true_iff u a r0).mp hq
  have hmem : r0 ∈ rows := List.mem_of_find?_eq_some hf
  have hcnt := countP_updateById (activeFor u' a') r0
    { r0 with isActive := false } rows hmem hwf.1
  have h1 : activeFor u' a' r0 = false :=
    activeFor_other_false u a u' a' r0 hu ht hne
  have h2 : activeFor u' a' { r0 with isActive := false } = false :=
    activeFor_other_false u a u' a' { r0 with isActive := false } hu ht hne
  rw [h1, h2] at hcnt
  unfold countActive
  omega

theorem countP_deactivate_same (rows : List AssignmentRow) (nid : Nat)
    (u a : String) (r0 : AssignmentRow)
    (hf : findFirstActive rows u a = some r0) (hwf : rowsWF rows nid) :
    countActive (updateById r0.id (fun _ => { r0 with isActive := false })
          rows) u a + 1
      = countActive rows u a := by
  have hq : activeFor u a r0 = true := List.find?_some hf
  have hmem : r0 ∈ rows := List.mem_of_find?_eq_some hf
  have hcnt := countP_updateById (activeFor u a) r0
    { r0 with isActive := false } rows hmem hwf.1
  have h2 : activeFor u a { r0 with isActive := false } = false := by
    simp [activeFor]
  rw [hq, h2, if_pos rfl, if_neg Bool.false_ne_true] at hcnt
  unfold countActive
  omega

theorem good_deactivateAgent_ok (st : Store) (u a : String) (st1 : Store)
    (hok : deactivateAgent st u a = .ok st1) (h : GoodStore st) :
    GoodStore st1 := by
  obtain ⟨⟨hwa, hwg⟩, ⟨hia, hig⟩⟩ := h
  cases hf : findFirstActive st.assignedAgents u a with
  | none => simp [deactivateAgent, hf] at hok
  | some r0 =>
    simp only [deactivateAgent, hf, Except.ok.injEq] at hok
    subst hok
    have hmem : r0 ∈ st.assignedAgents := List.mem_of_find?_eq_some hf
    refine ⟨⟨rowsWF_updateById st.assignedAgents st.nextId r0
      { r0 with isActive := false } hmem rfl hwa, hwg⟩, ?_, ?_⟩
    · intro u' a'
      by_cases hcase : u = u' ∧ a = a'
      · obtain ⟨rfl, rfl⟩ := hcase
        have := countP_deactivate_same st.assignedAgents st.nextId u a r0 hf
          hwa
        have h0 := hia u a
        show countActive (updateById r0.id
          (fun _ => { r0 with isActive := false }) st.assignedAgents) u a ≤ 1
        omega
      · have := countP_deactivate_other st.assignedAgents st.nextId u a u' a'
          r0 hf hwa hcase
        rw [this]
        exact hia u' a'
    · intro u' g'
      exact hig u' g'

theorem good_deactivateGroup_ok (st : Store) (u g : String) (st1 : Store)
    (hok : deactivateGroup st u g = .ok st1) (h : GoodStore st) :
    GoodStore st1 := by
  obtain ⟨⟨hwa, hwg⟩, ⟨hia, hig⟩⟩ := h
  cases hf : findFirstActive st.assignedGroups u g with
  | none => simp [deactivateGroup, hf] at hok
  | some r0 =>
    simp only [deactivateGroup, hf, Except.ok.injEq] at hok
    subst hok
    have hmem : r0 ∈ st.assignedGroups := List.mem_of_find?_eq_some hf
    refine ⟨⟨hwa, rowsWF_updateById st.assignedGroups st.nextId r0
      { r0 with isActive := false } hmem rfl hwg⟩, ?_, ?_⟩
    · intro u' a'
      exact hia u' a'
    · intro u' g'
      by_cases hcase : u = u' ∧ g = g'
      · obtain ⟨rfl, rfl⟩ := hcase
        have := countP_deactivate_same st.assignedGroups st.nextId u g r0 hf
          hwg
        have h0 := hig u g
        show countActive (updateById r0.id
          (fun _ => { r0 with isActive := false }) st.assignedGroups) u g ≤ 1
        omega
      · have := countP_deactivate_other st.assignedGroups st.nextId u g u' g'
          r0 hf hwg hcase
        rw [this]
        exact hig u' g'

theorem addAgentsToGroup_frame (st : Store) (g : String)
    (names : List String) (st1 : Store) (c : Nat)
    (hok : addAgentsToGroup st g names = .ok (st1, c)) :
    st1.assignedAgents = st.assignedAgents
      ∧ st1.assignedGroups = st.assignedGroups
      ∧ st1.nextId = st.nextId ∧ st1.groups = st.groups := by
  unfold addAgentsToGroup at hok
  by_cases hg : g ∈ st.groups
  · rw [if_pos hg] at hok
    by_cases he : (dedupe names).isEmpty
    · simp only [if_pos he, Except.ok.injEq, Prod.mk.injEq] at hok
      rw [← hok.1]
      exact ⟨rfl, rfl, rfl, rfl⟩
    · simp only [if_neg he, Except.ok.injEq, Prod.mk.injEq] at hok
      rw [← hok.1]
      exact ⟨rfl, rfl, rfl, rfl⟩
  · rw [if_neg hg] at hok
    cases hok

theorem replaceGroupAgents_frame (st : Store) (g : String)
    (names : List String) (st1 : Store)
    (hok : replaceGroupAgents st g names = .ok st1) :
    st1.assignedAgents = st.assignedAgents
      ∧ st1.assignedGroups = st.assignedGroups
      ∧ st1.nextId = st.nextId ∧ st1.groups = st.groups := by
  unfold replaceGroupAgents at hok
  by_cases hg : g ∈ st.groups
  · rw [if_pos hg] at hok
    simp only [Except.ok.injEq] at hok
    rw [← hok]
    exact ⟨rfl, rfl, rfl, rfl⟩
  · rw [if_neg hg] at hok
    cases hok

theorem good_of_frame (st st1 : Store)
    (hA : st1.assignedAgents = st.assignedAgents)
    (hG : st1.assignedGroups = st.assignedGroups)
    (hN : st1.nextId = st.nextId) (h : GoodStore st) : GoodStore st1 := by
  obtain ⟨⟨hwa, hwg⟩, ⟨hia, hig⟩⟩ := h
  refine ⟨⟨?_, ?_⟩, ?_, ?_⟩
  · rw [hA, hN]; exact hwa
  · rw [hG, hN]; exact hwg
  · intro u' a'; rw [hA]; exact hia u' a'
  · intro u' g'; rw [hG]; exact hig u' g'

theorem good_applyOp (st : Store) (op : AdminOp) (h : GoodStore st) :
    GoodStore (applyOp st op) := by
  cases op with
  | assignAgentOp u a opts now => exact good_assignAgent st u a opts now h
  | assignAgentsOp u names opts now =>
    exact good_assignAgents st u names opts now h
  | assignGroupOp u g opts now => exact good_assignGroup st u g opts now h
  | assignGroupsOp u gs opts now => exact good_assignGroups st u gs opts now h
  | deactivateAgentOp u a =>
    simp only [applyOp]
    cases hres : deactivateAgent st u a with
    | ok st1 => exact good_deactivateAgent_ok st u a st1 hres h
    | error e => exact h
  | deactivateGroupOp u g =>
    simp only [applyOp]
    cases hres : deactivateGroup st u g with
    | ok st1 => exact good_deactivateGroup_ok st u g st1 hres h
    | error e => exact h
  | createGroupOp g =>
    simp only [applyOp]
    by_cases hg : g ∈ st.groups
    · rw [if_pos hg]; exact h
    · rw [if_neg hg]
      exact good_of_frame st { st with groups := st.groups ++ [g] } rfl rfl
        rfl h
  | addGroupAgentsOp g names =>
    simp only [applyOp]
    cases hres : addAgentsToGroup st g names with
    | ok p =>
      obtain ⟨hA, hG, hN, _⟩ :=
        addAgentsToGroup_frame st g names p.1 p.2 (by rw [hres])
      exact good_of_frame st p.1 hA hG hN h
    | error e => exact h
  | replaceGroupAgentsOp g names =>
    simp only [applyOp]
    cases hres : replaceGroupAgents st g names with
    | ok st1 =>
      obtain ⟨hA, hG, hN, _⟩ := replaceGroupAgents_frame st g names st1 hres
      exact good_of_frame st st1 hA hG hN h
    | error e => exact h

theorem good_init (groups0 : List String) (items0 : List GroupItem) :
    GoodStore (Store.init groups0 items0) := by
  refine ⟨⟨⟨List.nodup_nil, ?_⟩, ⟨List.nodup_nil, ?_⟩⟩, ?_, ?_⟩
  · intro r hr; cases hr
  · intro r hr; cases hr
  · intro u a; simp [countActive, Store.init]
  · intro u g; simp [countActive, Store.init]

theorem good_foldl_ops (ops : List AdminOp) :
    ∀ st : Store, GoodStore st → GoodStore (ops.foldl applyOp st) := by
  induction ops with
  | nil => intro st h; exact h
  | cons op rest ih =>
    intro st h
    exact ih (applyOp st op) (good_applyOp st op h)

/-- Claim C1: for every (user, agent) pair, after any sequence of
non-concurrent calls to assign (single, bulk, or via group
materialization), deactivate and group management, starting from a store
with no assignment rows, at most one AssignedAgent row for that pair has
isActive = true; the same holds for AssignedGroup rows per (user, group)
pair, because every assignment first looks up an existing active row and
updates it in place instead of creating a second one. -/
theorem claim1_at_most_one_active (groups0 : List String)
    (items0 : List GroupItem) (ops : List AdminOp) (u t : String) :
    countActive
        ((ops.foldl applyOp (Store.init groups0 items0)).assignedAgents) u t
      ≤ 1
    ∧ countActive
        ((ops.foldl applyOp (Store.init groups0 items0)).assignedGroups) u t
      ≤ 1 := by
  have h := good_foldl_ops ops (Store.init groups0 items0)
    (good_init groups0 items0)
  exact ⟨h.2.1 u t, h.2.2 u t⟩

/-- Claim C2: computeExpiry is pure (a function of its arguments) and,
for every combination of optional startsAt, optional expiresAt (possibly
null) and optional durationDays: an explicitly provided expiresAt
(including null) is returned as is, ignoring durationDays; otherwise a
durationDays greater than zero yields expiresAt = (startsAt, or now when
absent) advanced by durationDays days; otherwise expiresAt is left
unresolved. -/
theorem claim2_compute_expiry (s : Option Time) (e : Option (Option Time))
    (d : Option Int) (now : Time) :
    (∀ ev, e = some ev → (computeExpiry s e d now).expiresAt = some ev)
    ∧ (e = none → ∀ dd, d = some dd → 0 < dd →
        (computeExpiry s e d now).expiresAt
          = some (some (addDays (s.getD now) dd)))
    ∧ (e = none → (∀ dd, d = some dd → dd ≤ 0) →
        (computeExpiry s e d now).expiresAt = none) := by
  refine ⟨?_, ?_, ?_⟩
  · intro ev he
    subst he
    rfl
  · intro he dd hd hdd
    subst he
    subst hd
    simp [computeExpiry, if_pos hdd]
  · intro he hd
    subst he
    cases d with
    | none => rfl
    | some dd =>
      have hle : dd ≤ 0 := hd dd rfl
      simp [computeExpiry, not_lt.mpr hle]

/-- Witness for C2: explicit null expiry wins over durationDays = 30, and
with no explicit expiry, durationDays = 30 advances startsAt by 30 days. -/
theorem claim2_compute_expiry_witness :
    (computeExpiry (some 5) (some none) (some 30) 0).expiresAt = some none
    ∧ (computeExpiry (some 5) none (some 30) 0).expiresAt
        = some (some (addDays 5 30)) :=
  ⟨(claim2_compute_expiry (some 5) (some none) (some 30) 0).1 none rfl,
   (claim2_compute_expiry (some 5) none (some 30) 0).2.1 rfl 30 rfl
     (by decide)⟩

theorem activeFor_applyWrite_none (u a : String) (w : WritePayload)
    (r0 : AssignmentRow) (hact : w.isActive = none)
    (hq : activeFor u a r0 = true) :
    activeFor u a (applyWrite w r0) = true := by
  obtain ⟨hu, ht, hA⟩ := (activeFor_eq_true_iff u a r0).mp hq
  refine (activeFor_eq_true_iff u a (applyWrite w r0)).mpr ⟨?_, ?_, ?_⟩
  · rw [applyWrite_userId, hu]
  · rw [applyWrite_target, ht]
  · rw [applyWrite_isActive, hact, Option.getD_none, hA]

theorem assign_first_call (st : Store) (u a : String) (opts : AssignOpts)
    (now : Time) (hwf : StoreWF st) (hact : opts.isActive = none) :
    ∃ r1, findFirstActive (assignAgent st u a opts now).assignedAgents u a
        = some r1
      ∧ ((assignAgent st u a opts now).assignedAgents.map
          AssignmentRow.id).Nodup := by
  have hw : (resolvePayload opts now).isActive = none := by
    simp [resolvePayload, hact]
  have hnd2 : ((assignAgent st u a opts now).assignedAgents.map
      AssignmentRow.id).Nodup :=
    (upsert_wf st.assignedAgents st.nextId u a (resolvePayload opts now) now
      hwf.1).1.1
  cases hf0 : findFirstActive st.assignedAgents u a with
  | some r0 =>
    have hq0 : activeFor u a r0 = true := List.find?_some hf0
    have hq1 : activeFor u a (applyWrite (resolvePayload opts now) r0) = true :=
      activeFor_applyWrite_none u a _ r0 hw hq0
    refine ⟨applyWrite (resolvePayload opts now) r0, ?_, hnd2⟩
    show findFirstActive (upsertActive st.assignedAgents st.nextId u a
      (resolvePayload opts now) now).1 u a = _
    simp only [upsertActive, hf0]
    exact find_updateById _ r0 _ hq1 _ hf0 hwf.1.1
  | none =>
    have hq1 : activeFor u a
        (createRow st.nextId u a (resolvePayload opts now) now) = true := by
      simp [activeFor, createRow, hw]
    refine ⟨createRow st.nextId u a (resolvePayload opts now) now, ?_, hnd2⟩
    show findFirstActive (upsertActive st.assignedAgents st.nextId u a
      (resolvePayload opts now) now).1 u a = _
    simp only [upsertActive, hf0]
    exact find_append_singleton _ _ hq1 _ hf0

theorem assign_second_call (st1 : Store) (u a : String) (opts : AssignOpts)
    (now2 : Time) (r1 : AssignmentRow)
    (hfind1 : findFirstActive st1.assignedAgents u a = some r1)
    (hnd1 : (st1.assignedAgents.map AssignmentRow.id).Nodup)
    (hact : opts.isActive = none) :
    ∃ r2, findFirstActive (assignAgent st1 u a opts now2).assignedAgents u a
        = some r2
      ∧ r2.id = r1.id
      ∧ (assignAgent st1 u a opts now2).assignedAgents.map AssignmentRow.id
          = st1.assignedAgents.map AssignmentRow.id := by
  have hq1 : activeFor u a r1 = true := List.find?_some hfind1
  have hw : (resolvePayload opts now2).isActive = none := by
    simp [resolvePayload, hact]
  have hq2 : activeFor u a (applyWrite (resolvePayload opts now2) r1) = true :=
    activeFor_applyWrite_none u a _ r1 hw hq1
  refine ⟨applyWrite (resolvePayload opts now2) r1, ?_, applyWrite_id _ _, ?_⟩
  · show findFirstActive (upsertActive st1.assignedAgents st1.nextId u a
      (resolvePayload opts now2) now2).1 u a = _
    simp only [upsertActive, hfind1]
    exact find_updateById _ r1 _ hq2 _ hfind1 hnd1
  · show (upsertActive st1.assignedAgents st1.nextId u a
      (resolvePayload opts now2) now2).1.map AssignmentRow.id = _
    simp only [upsertActive, hfind1]
    exact map_id_updateById r1.id _ _ fun r _ => applyWrite_id _ r1

/-- Claim C4: assigning the same agent to the same user twice in sequence
with the same window (startsAt, expiresAt, durationDays; isActive not
supplied) is idempotent on row count: the second call finds the active row
the first call produced and updates it in place (same id, same id list,
same number of rows), not creating a duplicate; re-assigning an already
actively assigned agent is not an error (assignAgent is total here). -/
theorem claim4_idempotent_reassign (st : Store) (u a : String)
    (sAt : Option Time) (eAt : Option (Option Time)) (dD : Option Int)
    (now now2 : Time) (hwf : StoreWF st) :
    ∃ r1 r2,
      findFirstActive
          (assignAgent st u a ⟨sAt, eAt, dD, none⟩ now).assignedAgents u a
        = some r1
      ∧ findFirstActive
          (assignAgent (assignAgent st u a ⟨sAt, eAt, dD, none⟩ now) u a
            ⟨sAt, eAt, dD, none⟩ now2).assignedAgents u a
        = some r2
      ∧ r2.id = r1.id
      ∧ (assignAgent (assignAgent st u a ⟨sAt, eAt, dD, none⟩ now) u a
            ⟨sAt, eAt, dD, none⟩ now2).assignedAgents.map AssignmentRow.id
        = (assignAgent st u a ⟨sAt, eAt, dD, none⟩ now).assignedAgents.map
            AssignmentRow.id
      ∧ (assignAgent (assignAgent st u a ⟨sAt, eAt, dD, none⟩ now) u a
            ⟨sAt, eAt, dD, none⟩ now2).assignedAgents.length
        = (assignAgent st u a ⟨sAt, eAt, dD, none⟩ now).assignedAgents.length
    := by
  obtain ⟨r1, hfind1, hnd1⟩ :=
    assign_first_call st u a ⟨sAt, eAt, dD, none⟩ now hwf rfl
  obtain ⟨r2, hfind2, hid, hmap⟩ :=
    assign_second_call (assignAgent st u a ⟨sAt, eAt, dD, none⟩ now) u a
      ⟨sAt, eAt, dD, none⟩ now2 r1 hfind1 hnd1 rfl
  refine ⟨r1, r2, hfind1, hfind2, hid, hmap, ?_⟩
  have := congrArg List.length hmap
  simpa using this

/-- Witness for C4: a double assignment of JIM to user u1 on the empty
store keeps a single row with a stable id. -/
theorem claim4_idempotent_reassign_witness :
    ∃ r1 r2,
      findFirstActive
          (assignAgent (Store.init [] []) "u1" "JIM" ⟨none, none, none, none⟩
            0).assignedAgents "u1" "JIM"
        = some r1
      ∧ findFirstActive
          (assignAgent (assignAgent (Store.init [] []) "u1" "JIM"
              ⟨none, none, none, none⟩ 0) "u1" "JIM"
            ⟨none, none, none, none⟩ 5).assignedAgents "u1" "JIM"
        = some r2
      ∧ r2.id = r1.id
      ∧ (assignAgent (assignAgent (Store.init [] []) "u1" "JIM"
            ⟨none, none, none, none⟩ 0) "u1" "JIM"
            ⟨none, none, none, none⟩ 5).assignedAgents.map AssignmentRow.id
        = (assignAgent (Store.init [] []) "u1" "JIM"
            ⟨none, none, none, none⟩ 0).assignedAgents.map AssignmentRow.id
      ∧ (assignAgent (assignAgent (Store.init [] []) "u1" "JIM"
            ⟨none, none, none, none⟩ 0) "u1" "JIM"
            ⟨none, none, none, none⟩ 5).assignedAgents.length
        = (assignAgent (Store.init [] []) "u1" "JIM"
            ⟨none, none, none, none⟩ 0).assignedAgents.length :=
  claim4_idempotent_reassign (Store.init [] []) "u1" "JIM" none none none 0 5
    ⟨⟨List.nodup_nil, fun r hr => absurd hr (List.not_mem_nil r)⟩,
     ⟨List.nodup_nil, fun r hr => absurd hr (List.not_mem_nil r)⟩⟩

/-- Claim C8: deactivateAgentByEmail fails with NotFound exactly when no
AssignedAgent row with isActive = true exists for the (user, agent) pair
(including when no row exists at all), performing no write; when an active
row exists it sets that row's isActive to false without deleting any row
(same ids, same length, all other rows untouched, group rows untouched). -/
theorem claim8_deactivate_agent (st : Store) (u a : String) :
    (deactivateAgent st u a = Except.error AdminErr.notFound
      ↔ ∀ r ∈ st.assignedAgents,
          ¬(r.userId = u ∧ r.target = a ∧ r.isActive = true))
    ∧ (∀ r0, findFirstActive st.assignedAgents u a = some r0 →
        ∃ st1, deactivateAgent st u a = Except.ok st1
          ∧ st1.assignedAgents.length = st.assignedAgents.length
          ∧ st1.assignedAgents.map AssignmentRow.id
              = st.assignedAgents.map AssignmentRow.id
          ∧ { r0 with isActive := false } ∈ st1.assignedAgents
          ∧ (∀ r ∈ st.assignedAgents, r.id ≠ r0.id → r ∈ st1.assignedAgents)
          ∧ st1.assignedGroups = st.assignedGroups) := by
  constructor
  · constructor
    · intro herr r hr hcon
      cases hf : findFirstActive st.assignedAgents u a with
      | some r0 => simp [deactivateAgent, hf] at herr
      | none =>
        have hno := List.find?_eq_none.mp hf r hr
        exact hno ((activeFor_eq_true_iff u a r).mpr hcon)
    · intro hnone
      have hf : findFirstActive st.assignedAgents u a = none := by
        apply List.find?_eq_none.mpr
        intro r hr hcon
        exact hnone r hr ((activeFor_eq_true_iff u a r).mp hcon)
      simp [deactivateAgent, hf]
  · intro r0 hf
    refine ⟨{ st with assignedAgents := updateById r0.id (fun _ => { r0 with isActive := false }) st.assignedAgents }, ?_, ?_, ?_, ?_, ?_, rfl⟩
    · simp [deactivateAgent, hf]
    · show (updateById r0.id (fun _ => { r0 with isActive := false })
        st.assignedAgents).length = st.assignedAgents.length
      simp [updateById]
    · exact map_id_updateById r0.id _ _ fun r _ => rfl
    · exact List.mem_map.mpr ⟨r0, List.mem_of_find?_eq_some hf, by simp⟩
    · intro r hr hne
      exact List.mem_map.mpr ⟨r, hr, by simp [if_neg hne]⟩

/-- Witness for C8: deactivating on a store with no rows at all is a
NotFound error. -/
theorem claim8_deactivate_agent_witness :
    deactivateAgent (Store.init [] []) "u1" "JIM"
      = Except.error AdminErr.notFound :=
  (claim8_deactivate_agent (Store.init [] []) "u1" "JIM").1.mpr
    fun r hr => absurd hr (List.not_mem_nil r)

/-- Claim C5: when an active AssignedGroup row exists for the resolved
(user, group), deactivateGroupByEmail sets only that row's isActive to
false and changes no AssignedAgent row: the AssignedAgent table (and the
group membership table) is untouched, the AssignedGroup ids are unchanged,
and every other AssignedGroup row is kept as is. -/
theorem claim5_deactivate_group_frame (st : Store) (u g : String)
    (r0 : AssignmentRow)
    (hf : findFirstActive st.assignedGroups u g = some r0) :
    ∃ st1, deactivateGroup st u g = Except.ok st1
      ∧ st1.assignedAgents = st.assignedAgents
      ∧ st1.groupItems = st.groupItems
      ∧ st1.assignedGroups.map AssignmentRow.id
          = st.assignedGroups.map AssignmentRow.id
      ∧ { r0 with isActive := false } ∈ st1.assignedGroups
      ∧ (∀ r ∈ st.assignedGroups, r.id ≠ r0.id → r ∈ st1.assignedGroups)
    := by
  refine ⟨{ st with assignedGroups := updateById r0.id (fun _ => { r0 with isActive := false }) st.assignedGroups }, ?_, rfl, rfl, ?_, ?_, ?_⟩
  · simp [deactivateGroup, hf]
  · exact map_id_updateById r0.id _ _ fun r _ => rfl
  · exact List.mem_map.mpr ⟨r0, List.mem_of_find?_eq_some hf, by simp⟩
  · intro r hr hne
    exact List.mem_map.mpr ⟨r, hr, by simp [if_neg hne]⟩

def c5arow : AssignmentRow :=
  { id := 0, userId := "u1", target := "JIM", startsAt := 0,
    expiresAt := none, durationDays := none, isActive := true,
    createdAt := 0 }

def c5grow : AssignmentRow :=
  { id := 1, userId := "u1", target := "G1", startsAt := 0,
    expiresAt := none, durationDays := none, isActive := true,
    createdAt := 0 }

def c5store : Store :=
  { assignedAgents := [c5arow], assignedGroups := [c5grow],
    groups := ["G1"], groupItems := [⟨"G1", "JIM"⟩], nextId := 2 }

/-- Witness for C5: deactivating the group assignment for G1 leaves the
materialized JIM assignment untouched. -/
theorem claim5_deactivate_group_frame_witness :
    ∃ st1, deactivateGroup c5store "u1" "G1" = Except.ok st1
      ∧ st1.assignedAgents = c5store.assignedAgents
      ∧ st1.groupItems = c5store.groupItems
      ∧ st1.assignedGroups.map AssignmentRow.id
          = c5store.assignedGroups.map AssignmentRow.id
      ∧ { c5grow with isActive := false } ∈ st1.assignedGroups
      ∧ (∀ r ∈ c5store.assignedGroups, r.id ≠ c5grow.id →
          r ∈ st1.assignedGroups) :=
  claim5_deactivate_group_frame c5store "u1" "G1" c5grow (by decide)

theorem selectedPred_iff (u : String) (now : Time) (r : AssignmentRow) :
    selectedPred u now r = true
      ↔ r.userId = u ∧ r.isActive = true
        ∧ (r.expiresAt = none ∨ ∃ e, r.expiresAt = some e ∧ now < e) := by
  unfold selectedPred
  cases hE : r.expiresAt with
  | none => simp [beq_iff_eq, and_assoc]
  | some e => simp [beq_iff_eq, and_assoc]

/-- Claim C3: getSelectedAgentsByEmail returns exactly the agent names of
rows with isActive = true and expiresAt null or strictly in the future,
ordered newest-created first; inactive rows and expired active rows are
excluded. -/
theorem claim3_get_selected (st : Store) (u : String) (now : Time) :
    ∃ rows : List AssignmentRow,
      getSelectedAgents st u now = rows.map AssignmentRow.target
      ∧ List.Perm rows (st.assignedAgents.filter (selectedPred u now))
      ∧ List.Pairwise (fun r1 r2 => r2.createdAt ≤ r1.createdAt) rows
      ∧ ∀ nm, nm ∈ getSelectedAgents st u now ↔
          ∃ r ∈ st.assignedAgents, r.userId = u ∧ r.isActive = true
            ∧ (r.expiresAt = none ∨ ∃ e, r.expiresAt = some e ∧ now < e)
            ∧ r.target = nm := by
  refine ⟨(st.assignedAgents.filter (selectedPred u now)).mergeSort
      (fun r1 r2 => r2.createdAt ≤ r1.createdAt),
    rfl, List.mergeSort_perm _ _, ?_, ?_⟩
  · have htrans : ∀ a b c : AssignmentRow,
        decide (b.createdAt ≤ a.createdAt) = true →
        decide (c.createdAt ≤ b.createdAt) = true →
        decide (c.createdAt ≤ a.createdAt) = true := by
      intro a b c hab hbc
      simp only [decide_eq_true_eq] at hab hbc ⊢
      exact le_trans hbc hab
    have htot : ∀ a b : AssignmentRow,
        (decide (b.createdAt ≤ a.createdAt)
          || decide (a.createdAt ≤ b.createdAt)) = true := by
      intro a b
      simp only [Bool.or_eq_true, decide_eq_true_eq]
      exact le_total b.createdAt a.createdAt
    exact (@List.sorted_mergeSort AssignmentRow
      (fun r1 r2 => decide (r2.createdAt ≤ r1.createdAt)) htrans htot
      (st.assignedAgents.filter (selectedPred u now))).imp
      fun h => by simpa using h
  · intro nm
    constructor
    · intro hmem
      obtain ⟨r, hr, hrt⟩ := List.mem_map.mp hmem
      have hr2 : r ∈ st.assignedAgents.filter (selectedPred u now) :=
        (List.mergeSort_perm _ _).mem_iff.mp hr
      obtain ⟨hrA, hpred⟩ := List.mem_filter.mp hr2
      obtain ⟨h1, h2, h3⟩ := (selectedPred_iff u now r).mp hpred
      exact ⟨r, hrA, h1, h2, h3, hrt⟩
    · rintro ⟨r, hrA, h1, h2, h3, hrt⟩
      apply List.mem_map.mpr
      refine ⟨r, ?_, hrt⟩
      apply (List.mergeSort_perm _ _).mem_iff.mpr
      exact List.mem_filter.mpr
        ⟨hrA, (selectedPred_iff u now r).mpr ⟨h1, h2, h3⟩⟩

theorem contains_iff (l : List String) (a : String) :
    l.contains a = true ↔ a ∈ l := List.elem_iff

theorem mem_dedupeAux (a : String) :
    ∀ (l seen : List String), a ∈ dedupeAux seen l ↔ a ∈ l ∧ a ∉ seen := by
  intro l
  induction l with
  | nil => intro seen; simp [dedupeAux]
  | cons b rest ih =>
    intro seen
    by_cases hb : b ∈ seen
    · rw [dedupeAux, if_pos hb, ih seen]
      constructor
      · rintro ⟨h1, h2⟩
        exact ⟨List.mem_cons_of_mem b h1, h2⟩
      · rintro ⟨h1, h2⟩
        rcases List.mem_cons.mp h1 with rfl | h1
        · exact absurd hb h2
        · exact ⟨h1, h2⟩
    · rw [dedupeAux, if_neg hb]
      by_cases hab : a = b
      · subst hab
        simp [hb]
      · rw [List.mem_cons]
        constructor
        · rintro (rfl | h)
          · exact ⟨List.mem_cons_self a rest, hb⟩
          · obtain ⟨h1, h2⟩ := (ih (b :: seen)).mp h
            refine ⟨List.mem_cons_of_mem b h1, ?_⟩
            intro hc
            exact h2 (List.mem_cons_of_mem b hc)
        · rintro ⟨h1, h2⟩
          rcases List.mem_cons.mp h1 with rfl | h1
          · exact Or.inl rfl
          · refine Or.inr ((ih (b :: seen)).mpr ⟨h1, ?_⟩)
            intro hc
            rcases List.mem_cons.mp hc with rfl | hc
            · exact hab rfl
            · exact h2 hc

theorem mem_dedupe (l : List String) (a : String) :
    a ∈ dedupe l ↔ a ∈ l := by
  unfold dedupe
  rw [mem_dedupeAux]
  simp

theorem dedupe_eq_nil_iff (l : List String) : dedupe l = [] ↔ l = [] := by
  cases l with
  | nil => simp [dedupe, dedupeAux]
  | cons a rest =>
    simp only [dedupe, dedupeAux, List.not_mem_nil, if_neg (fun h => h)]
    constructor
    · intro h; cases h
    · intro h; cases h

theorem nodup_dedupeAux :
    ∀ (l seen : List String), (dedupeAux seen l).Nodup := by
  intro l
  induction l with
  | nil => intro seen; exact List.nodup_nil
  | cons b rest ih =>
    intro seen
    by_cases hb : b ∈ seen
    · rw [dedupeAux, if_pos hb]
      exact ih seen
    · rw [dedupeAux, if_neg hb]
      refine List.nodup_cons.mpr ⟨?_, ih (b :: seen)⟩
      intro hc
      exact ((mem_dedupeAux b rest (b :: seen)).mp hc).2
        (List.mem_cons_self b seen)

theorem nodup_dedupe (l : List String) : (dedupe l).Nodup :=
  nodup_dedupeAux l []

theorem dedupeAux_of_nodup :
    ∀ (l seen : List String), l.Nodup → (∀ x ∈ l, x ∉ seen) →
      dedupeAux seen l = l := by
  intro l
  induction l with
  | nil => intro seen _ _; rfl
  | cons b rest ih =>
    intro seen hnd hdis
    rw [dedupeAux, if_neg (hdis b (List.mem_cons_self b rest))]
    rw [ih (b :: seen) (List.nodup_cons.mp hnd).2]
    intro x hx hc
    rcases List.mem_cons.mp hc with rfl | hc
    · exact (List.nodup_cons.mp hnd).1 hx
    · exact hdis x (List.mem_cons_of_mem b hx) hc

theorem dedupe_of_nodup (l : List String) (h : l.Nodup) : dedupe l = l :=
  dedupeAux_of_nodup l [] h fun x _ hc => absurd hc (List.not_mem_nil x)

theorem itemMem_iff (items : List GroupItem) (g a : String) :
    itemMem items g a = true ↔ (⟨g, a⟩ : GroupItem) ∈ items := by
  unfold itemMem
  rw [List.any_eq_true]
  constructor
  · rintro ⟨it, hit, hb⟩
    simp only [Bool.and_eq_true, beq_iff_eq] at hb
    have heq : it = (⟨g, a⟩ : GroupItem) := by
      cases it
      simp_all
    rwa [heq] at hit
  · intro h
    exact ⟨⟨g, a⟩, h, by simp⟩

theorem mem_membersOf (items : List GroupItem) (g a : String) :
    a ∈ membersOf items g ↔ (⟨g, a⟩ : GroupItem) ∈ items := by
  unfold membersOf
  rw [List.mem_map]
  constructor
  · rintro ⟨it, hit, rfl⟩
    obtain ⟨hmem, hg⟩ := List.mem_filter.mp hit
    have hgid : it.groupId = g := by simpa [beq_iff_eq] using hg
    have heq : it = (⟨g, it.agentName⟩ : GroupItem) := by
      cases it
      simp_all
    rwa [heq] at hmem
  · intro h
    exact ⟨⟨g, a⟩, List.mem_filter.mpr ⟨h, by simp⟩, rfl⟩

theorem insertMissing_subset (g : String) :
    ∀ (names : List String) (items : List GroupItem) (it : GroupItem),
      it ∈ items → it ∈ (insertMissing g items names).1 := by
  intro names
  induction names with
  | nil => intro items it h; exact h
  | cons a rest ih =>
    intro items it h
    by_cases hm : itemMem items g a
    · rw [insertMissing, if_pos hm]
      exact ih items it h
    · rw [insertMissing, if_neg hm]
      exact ih (items ++ [⟨g, a⟩]) it (List.mem_append_left _ h)

theorem insertMissing_mem (g : String) :
    ∀ (names : List String) (items : List GroupItem) (it : GroupItem),
      it ∈ (insertMissing g items names).1
        ↔ it ∈ items ∨ (it.groupId = g ∧ it.agentName ∈ names) := by
  intro names
  induction names with
  | nil => intro items it; simp [insertMissing]
  | cons a rest ih =>
    intro items it
    by_cases hm : itemMem items g a
    · rw [insertMissing, if_pos hm, ih items it]
      constructor
      · rintro (h | ⟨h1, h2⟩)
        · exact Or.inl h
        · exact Or.inr ⟨h1, List.mem_cons_of_mem a h2⟩
      · rintro (h | ⟨h1, h2⟩)
        · exact Or.inl h
        · rcases List.mem_cons.mp h2 with rfl | h2
          · left
            have hgm : (⟨g, it.agentName⟩ : GroupItem) ∈ items :=
              (itemMem_iff items g it.agentName).mp hm
            have heq : it = (⟨g, it.agentName⟩ : GroupItem) := by
              cases it
              simp_all
            rwa [← heq] at hgm
          · exact Or.inr ⟨h1, h2⟩
    · rw [insertMissing, if_neg hm]
      have hres := ih (items ++ [⟨g, a⟩]) it
      rw [show (let p := insertMissing g (items ++ [⟨g, a⟩]) rest;
          (p.1, p.2 + 1)).1 = (insertMissing g (items ++ [⟨g, a⟩]) rest).1
        from rfl]
      rw [hres]
      rw [List.mem_append, List.mem_singleton]
      constructor
      · rintro ((h | rfl) | ⟨h1, h2⟩)
        · exact Or.inl h
        · exact Or.inr ⟨rfl, List.mem_cons_self a rest⟩
        · exact Or.inr ⟨h1, List.mem_cons_of_mem a h2⟩
      · rintro (h | ⟨h1, h2⟩)
        · exact Or.inl (Or.inl h)
        · rcases List.mem_cons.mp h2 with heq | h2
          · refine Or.inl (Or.inr ?_)
            cases it
            simp_all
          · exact Or.inr ⟨h1, h2⟩

theorem itemMem_append_single (items : List GroupItem) (g a b : String)
    (hne : b ≠ a) :
    itemMem (items ++ [⟨g, a⟩]) g b = itemMem items g b := by
  unfold itemMem
  rw [List.any_append]
  have hab : (a == b) = false := beq_eq_false_iff_ne.mpr fun h => hne h.symm
  simp [hab]

theorem insertMissing_count (g : String) :
    ∀ (names : List String) (items : List GroupItem), names.Nodup →
      (insertMissing g items names).2
        = (names.filter fun a => !(itemMem items g a)).length := by
  intro names
  induction names with
  | nil => intro items _; rfl
  | cons a rest ih =>
    intro items hnd
    obtain ⟨hna, hndr⟩ := List.nodup_cons.mp hnd
    by_cases hm : itemMem items g a
    · rw [insertMissing, if_pos hm, List.filter_cons]
      rw [if_neg (by simp [hm])]
      exact ih items hndr
    · rw [insertMissing, if_neg hm, List.filter_cons]
      rw [if_pos (by simp [hm])]
      have hstep : (insertMissing g (items ++ [⟨g, a⟩]) rest).2
          = (rest.filter fun b => !(itemMem (items ++ [⟨g, a⟩]) g b)).length :=
        ih (items ++ [⟨g, a⟩]) hndr
      have hsame : (rest.filter fun b => !(itemMem (items ++ [⟨g, a⟩]) g b))
          = rest.filter fun b => !(itemMem items g b) := by
        apply List.filter_congr
        intro b hb
        rw [itemMem_append_single items g a b]
        intro hc
        exact hna (hc ▸ hb)
      rw [show (let p := insertMissing g (items ++ [⟨g, a⟩]) rest;
          (p.1, p.2 + 1)).2 = (insertMissing g (items ++ [⟨g, a⟩]) rest).2 + 1
        from rfl]
      rw [hstep, hsame, List.length_cons]

/-- Claim C10: for an existing group, addAgentsToGroup with an input whose
deduplicated form is empty returns count 0 and performs no write, rather
than raising a validation error; in general the returned count is exactly
the number of (group, agent) pairs actually inserted, already-present
pairs being silently skipped (and no existing membership row is lost). -/
theorem claim10_add_agents_to_group (st : Store) (g : String)
    (names : List String) (hg : g ∈ st.groups) :
    (dedupe names = [] → addAgentsToGroup st g names = Except.ok (st, 0))
    ∧ (∀ st1 c, addAgentsToGroup st g names = Except.ok (st1, c) →
        c = ((dedupe names).filter
              fun a => !(itemMem st.groupItems g a)).length
        ∧ (∀ a, a ∈ membersOf st1.groupItems g
            ↔ a ∈ membersOf st.groupItems g ∨ a ∈ names)
        ∧ (∀ it ∈ st.groupItems, it ∈ st1.groupItems)
        ∧ st1.assignedAgents = st.assignedAgents
        ∧ st1.assignedGroups = st.assignedGroups) := by
  constructor
  · intro hde
    have he : (dedupe names).isEmpty = true := by rw [hde]; rfl
    unfold addAgentsToGroup
    rw [if_pos hg, if_pos he]
  · intro st1 c hok
    unfold addAgentsToGroup at hok
    rw [if_pos hg] at hok
    by_cases he : (dedupe names).isEmpty
    · have hde : dedupe names = [] := List.isEmpty_iff.mp he
      have hn : names = [] := (dedupe_eq_nil_iff names).mp hde
      rw [if_pos he] at hok
      simp only [Except.ok.injEq, Prod.mk.injEq] at hok
      obtain ⟨hst, hc⟩ := hok
      subst hst
      subst hc
      refine ⟨by rw [hde]; rfl, ?_, fun it h => h, rfl, rfl⟩
      intro a
      simp [hn]
    · rw [if_neg he] at hok
      simp only [Except.ok.injEq, Prod.mk.injEq] at hok
      obtain ⟨hst, hc⟩ := hok
      subst hc
      refine ⟨?_, ?_, ?_, ?_, ?_⟩
      · exact (insertMissing_count g (dedupe names) st.groupItems
          (nodup_dedupe names)).symm ▸ rfl
      · intro a
        rw [← hst]
        show a ∈ membersOf (insertMissing g st.groupItems (dedupe names)).1 g
          ↔ _
        rw [mem_membersOf, insertMissing_mem, ← mem_membersOf]
        constructor
        · rintro (h | ⟨_, h2⟩)
          · exact Or.inl h
          · exact Or.inr ((mem_dedupe names a).mp h2)
        · rintro (h | h)
          · exact Or.inl h
          · exact Or.inr ⟨rfl, (mem_dedupe names a).mpr h⟩
      · intro it hit
        rw [← hst]
        exact insertMissing_subset g (dedupe names) st.groupItems it hit
      · rw [← hst]
      · rw [← hst]

def c10store : Store :=
  { assignedAgents := [], assignedGroups := [], groups := ["G1"],
    groupItems := [⟨"G1", "JIM"⟩], nextId := 0 }

/-- Witness for C10: an empty input on an existing group returns count 0
and leaves the store untouched. -/
theorem claim10_add_agents_to_group_witness :
    addAgentsToGroup c10store "G1" [] = Except.ok (c10store, 0) :=
  (claim10_add_agents_to_group c10store "G1" [] (by decide)).1 rfl

/-- Claim C6: for an existing group, replaceGroupAgents leaves the group's
membership set equal to the deduplicated input set: members not in the new
set are deleted, missing ones inserted, common ones kept as the same rows,
memberships of other groups are untouched, and an empty input clears the
group; the delete and insert run inside one transaction, whose model here
is a single total state transition (the only early exit, NotFound on an
unknown group, happens before any write). -/
theorem claim6_replace_group_agents (st : Store) (g : String)
    (names : List String) (hg : g ∈ st.groups) :
    ∃ st1, replaceGroupAgents st g names = Except.ok st1
      ∧ (∀ a, a ∈ membersOf st1.groupItems g ↔ a ∈ names)
      ∧ (names = [] → membersOf st1.groupItems g = [])
      ∧ (∀ it ∈ st.groupItems, it.groupId = g → it.agentName ∈ names →
          it ∈ st1.groupItems)
      ∧ (∀ it ∈ st.groupItems, it.groupId ≠ g → it ∈ st1.groupItems)
      ∧ st1.assignedAgents = st.assignedAgents
      ∧ st1.assignedGroups = st.assignedGroups := by
  by_cases he : (dedupe names).isEmpty
  · have hde : dedupe names = [] := List.isEmpty_iff.mp he
    have hn : names = [] := (dedupe_eq_nil_iff names).mp hde
    refine ⟨{ st with groupItems := st.groupItems.filter fun it => !(it.groupId == g) }, ?_, ?_, ?_, ?_, ?_, rfl, rfl⟩
    · simp only [replaceGroupAgents, if_pos hg, if_pos he]
    · intro a
      subst hn
      simp only [List.not_mem_nil, iff_false]
      intro hc
      have h2 := List.mem_filter.mp ((mem_membersOf _ g a).mp hc)
      simp at h2
    · intro _
      rw [List.eq_nil_iff_forall_not_mem]
      intro a hc
      have h2 := List.mem_filter.mp ((mem_membersOf _ g a).mp hc)
      simp at h2
    · intro it _ _ hmem
      subst hn
      cases hmem
    · intro it hit hne
      apply List.mem_filter.mpr
      refine ⟨hit, ?_⟩
      simp [beq_iff_eq, hne]
  · refine ⟨{ st with groupItems := (insertMissing g (st.groupItems.filter fun it => !(it.groupId == g && !((dedupe names).contains it.agentName))) (dedupe names)).1 }, ?_, ?_, ?_, ?_, ?_, rfl, rfl⟩
    · simp only [replaceGroupAgents, if_pos hg, if_neg he]
    · intro a
      show a ∈ membersOf (insertMissing g _ (dedupe names)).1 g ↔ _
      rw [mem_membersOf, insertMissing_mem]
      constructor
      · rintro (h | ⟨_, h2⟩)
        · have h2 := (List.mem_filter.mp h).2
          simp only [Bool.not_eq_eq_eq_not, Bool.not_true, Bool.and_eq_false_iff] at h2
          rcases h2 with h2 | h2
          · simp at h2
          · have : (dedupe names).contains a = true := by
              simpa using h2
            exact (mem_dedupe names a).mp ((contains_iff _ a).mp this)
        · exact (mem_dedupe names a).mp h2
      · intro h
        exact Or.inr ⟨rfl, (mem_dedupe names a).mpr h⟩
    · intro hn
      have : dedupe names = [] := by rw [hn]; rfl
      rw [this] at he
      cases he rfl
    · intro it hit hgid hname
      apply insertMissing_subset
      apply List.mem_filter.mpr
      refine ⟨hit, ?_⟩
      have hc : (dedupe names).contains it.agentName = true :=
        (contains_iff _ _).mpr ((mem_dedupe names _).mpr hname)
      rw [hc]
      simp
    · intro it hit hne
      apply insertMissing_subset
      apply List.mem_filter.mpr
      refine ⟨hit, ?_⟩
      simp [beq_iff_eq, hne]

def c6store : Store :=
  { assignedAgents := [], assignedGroups := [], groups := ["G1"],
    groupItems := [⟨"G1", "JIM"⟩, ⟨"G1", "ALEX"⟩, ⟨"G2", "JIM"⟩],
    nextId := 0 }

/-- Witness for C6: replacing G1's members {JIM, ALEX} with {ALEX, MAX}
keeps ALEX's row, drops JIM from G1 only, and adds MAX. -/
theorem claim6_replace_group_agents_witness :
    ∃ st1, replaceGroupAgents c6store "G1" ["ALEX", "MAX"] = Except.ok st1
      ∧ (∀ a, a ∈ membersOf st1.groupItems "G1" ↔ a ∈ ["ALEX", "MAX"])
      ∧ (["ALEX", "MAX"] = [] → membersOf st1.groupItems "G1" = [])
      ∧ (∀ it ∈ c6store.groupItems, it.groupId = "G1" →
          it.agentName ∈ ["ALEX", "MAX"] → it ∈ st1.groupItems)
      ∧ (∀ it ∈ c6store.groupItems, it.groupId ≠ "G1" →
          it ∈ st1.groupItems)
      ∧ st1.assignedAgents = c6store.assignedAgents
      ∧ st1.assignedGroups = c6store.assignedGroups :=
  claim6_replace_group_agents c6store "G1" ["ALEX", "MAX"] (by decide)

theorem toggleList_mem (current : List String) (n : String)
    (hnd : current.Nodup) (hn : n ∈ current) :
    toggleList current n = current.erase n := by
  unfold toggleList
  rw [if_pos hn]
  exact (List.Nodup.erase_eq_filter hnd n).symm

theorem toggleList_not_mem (current : List String) (n : String)
    (hnd : current.Nodup) (hn : n ∉ current) :
    toggleList current n = current ++ [n] := by
  unfold toggleList
  rw [if_neg hn]
  apply dedupe_of_nodup
  rw [List.nodup_append]
  refine ⟨hnd, List.nodup_singleton n, ?_⟩
  intro x hx hx2
  rw [List.mem_singleton] at hx2
  subst hx2
  exact hn hx

/-- Claim C9: for a catalog-valid agent name (compared after trimming and
uppercasing), toggleAgent removes the normalized name from the
selected-agents list when present and otherwise appends it, leaving all
other entries and their relative order unchanged (the list is kept
deduplicated by every mutation); toggling the same agent twice restores
the original membership of that agent and of every other name. -/
theorem claim9_toggle_agent (current : List String) (raw : String)
    (hvalid : normalizeAgent raw ∈ agentCatalog) (hnd : current.Nodup) :
    ∃ out, toggleAgentService current raw = Except.ok out
      ∧ (normalizeAgent raw ∈ current →
          out = current.erase (normalizeAgent raw))
      ∧ (normalizeAgent raw ∉ current →
          out = current ++ [normalizeAgent raw])
      ∧ ∃ out2, toggleAgentService out raw = Except.ok out2
          ∧ (normalizeAgent raw ∈ out2 ↔ normalizeAgent raw ∈ current)
          ∧ ∀ x, x ≠ normalizeAgent raw → (x ∈ out2 ↔ x ∈ current) := by
  refine ⟨toggleList current (normalizeAgent raw), ?_, ?_, ?_, ?_⟩
  · unfold toggleAgentService
    rw [if_pos hvalid]
  · intro hn
    exact toggleList_mem current (normalizeAgent raw) hnd hn
  · intro hn
    exact toggleList_not_mem current (normalizeAgent raw) hnd hn
  · refine ⟨toggleList (toggleList current (normalizeAgent raw))
      (normalizeAgent raw), ?_, ?_, ?_⟩
    · unfold toggleAgentService
      rw [if_pos hvalid]
    · by_cases hn : normalizeAgent raw ∈ current
      · rw [toggleList_mem current (normalizeAgent raw) hnd hn]
        have hnE : normalizeAgent raw ∉ current.erase (normalizeAgent raw) :=
          fun hc => (((hnd.mem_erase_iff).mp hc).1) rfl
        rw [toggleList_not_mem _ _ (hnd.erase (normalizeAgent raw)) hnE]
        simp [hn]
      · rw [toggleList_not_mem current (normalizeAgent raw) hnd hn]
        have hndA : (current ++ [normalizeAgent raw]).Nodup := by
          rw [List.nodup_append]
          refine ⟨hnd, List.nodup_singleton _, ?_⟩
          intro x hx hx2
          rw [List.mem_singleton] at hx2
          subst hx2
          exact hn hx
        have hmemA : normalizeAgent raw ∈ current ++ [normalizeAgent raw] :=
          List.mem_append_right current (List.mem_singleton.mpr rfl)
        rw [toggleList_mem _ _ hndA hmemA]
        rw [List.erase_append_right _ hn, List.erase_cons_head]
        simp [hn]
    · intro x hx
      by_cases hn : normalizeAgent raw ∈ current
      · rw [toggleList_mem current (normalizeAgent raw) hnd hn]
        have hnE : normalizeAgent raw ∉ current.erase (normalizeAgent raw) :=
          fun hc => (((hnd.mem_erase_iff).mp hc).1) rfl
        rw [toggleList_not_mem _ _ (hnd.erase (normalizeAgent raw)) hnE]
        rw [List.mem_append, List.mem_singleton]
        rw [List.mem_erase_of_ne hx]
        simp [hx]
      · rw [toggleList_not_mem current (normalizeAgent raw) hnd hn]
        have hndA : (current ++ [normalizeAgent raw]).Nodup := by
          rw [List.nodup_append]
          refine ⟨hnd, List.nodup_singleton _, ?_⟩
          intro y hy hy2
          rw [List.mem_singleton] at hy2
          subst hy2
          exact hn hy
        have hmemA : normalizeAgent raw ∈ current ++ [normalizeAgent raw] :=
          List.mem_append_right current (List.mem_singleton.mpr rfl)
        rw [toggleList_mem _ _ hndA hmemA]
        rw [List.erase_append_right _ hn, List.erase_cons_head]
        simp

/-- Witness for C9: toggling a raw name that normalizes to ALEX on the
list containing only JIM appends ALEX; toggling again restores
membership. -/
theorem claim9_toggle_agent_witness :
    ∃ out, toggleAgentService ["JIM"] " alex " = Except.ok out
      ∧ (normalizeAgent " alex " ∈ ["JIM"] →
          out = List.erase ["JIM"] (normalizeAgent " alex "))
      ∧ (normalizeAgent " alex " ∉ ["JIM"] →
          out = ["JIM"] ++ [normalizeAgent " alex "])
      ∧ ∃ out2, toggleAgentService out " alex " = Except.ok out2
          ∧ (normalizeAgent " alex " ∈ out2
              ↔ normalizeAgent " alex " ∈ ["JIM"])
          ∧ ∀ x, x ≠ normalizeAgent " alex " →
              (x ∈ out2 ↔ x ∈ ["JIM"]) :=
  claim9_toggle_agent ["JIM"] " alex " (by decide) (by decide)

theorem foldl_assign_groups_eq (u : String) (w : WritePayload) (now : Time) :
    ∀ (names : List String) (st : Store),
      ((names.foldl (assignStep u w now) st).assignedGroups)
        = st.assignedGroups := by
  intro names
  induction names with
  | nil => intro st; rfl
  | cons b rest ih =>
    intro st
    rw [List.foldl_cons]
    exact ih (assignStep u w now st b)

theorem memberNames_upsertGroup (st : Store) (u g : String)
    (w : WritePayload) (now : Time) (g2 : String) :
    memberNames (upsertGroupAssignment st u g w now) g2
      = memberNames st g2 := rfl

theorem foldl_assign_count_other (u : String) (w : WritePayload)
    (now : Time) :
    ∀ (names : List String) (st : Store), GoodStore st → ∀ (u2 a : String),
      ¬(u2 = u ∧ a ∈ names) →
      countActive ((names.foldl (assignStep u w now) st).assignedAgents) u2 a
        = countActive st.assignedAgents u2 a := by
  intro names
  induction names with
  | nil => intro st _ u2 a _; rfl
  | cons b rest ih =>
    intro st hgood u2 a hne
    have hne1 : ¬(u = u2 ∧ b = a) := by
      rintro ⟨rfl, rfl⟩
      exact hne ⟨rfl, List.mem_cons_self _ _⟩
    have hstep : countActive ((assignStep u w now st b).assignedAgents) u2 a
        = countActive st.assignedAgents u2 a :=
      upsert_count_other st.assignedAgents st.nextId u b w now u2 a
        hgood.1.1 hne1
    have hrec := ih (assignStep u w now st b)
      (good_assignStep u w now st b hgood) u2 a
      fun hc => hne ⟨hc.1, List.mem_cons_of_mem b hc.2⟩
    rw [List.foldl_cons, hrec, hstep]

theorem foldl_assign_count_mem (u : String) (w : WritePayload) (now : Time)
    (hact : w.isActive = none) :
    ∀ (names : List String) (st : Store), GoodStore st → ∀ a ∈ names,
      countActive ((names.foldl (assignStep u w now) st).assignedAgents) u a
        = 1 := by
  intro names
  induction names with
  | nil => intro st _ a ha; cases ha
  | cons b rest ih =>
    intro st hgood a ha
    rw [List.foldl_cons]
    by_cases har : a ∈ rest
    · exact ih (assignStep u w now st b)
        (good_assignStep u w now st b hgood) a har
    · rcases List.mem_cons.mp ha with rfl | har2
      · have h1 : countActive ((assignStep u w now st a).assignedAgents) u a
            = 1 := by
          have hs := upsert_count_same st.assignedAgents st.nextId u a w now
            hgood.1.1 (hgood.2.1 u a)
          rw [hact] at hs
          simpa using hs
        have h2 := foldl_assign_count_other u w now rest
          (assignStep u w now st a) (good_assignStep u w now st a hgood) u a
          fun hc => har hc.2
        rw [h2, h1]
      · exact absurd har2 har

theorem assignGroupsLoop_ok (u : String) (w : WritePayload) (now : Time)
    (hact : w.isActive = none) :
    ∀ (gs : List String) (st : Store), GoodStore st →
      (∀ g ∈ gs, g ∈ st.groups) → (∀ g ∈ gs, memberNames st g ≠ []) →
      ∃ stG ns, assignGroupsLoop u w now st gs = (stG, some ns)
        ∧ stG.assignedAgents = st.assignedAgents
        ∧ stG.groupItems = st.groupItems
        ∧ stG.groups = st.groups
        ∧ GoodStore stG
        ∧ (∀ a, a ∈ ns ↔ ∃ g ∈ gs, a ∈ memberNames st g)
        ∧ (∀ g ∈ gs, countActive stG.assignedGroups u g = 1)
        ∧ (∀ u2 t2, ¬(u2 = u ∧ t2 ∈ gs) →
            countActive stG.assignedGroups u2 t2
              = countActive st.assignedGroups u2 t2) := by
  intro gs
  induction gs with
  | nil =>
    intro st hgood _ _
    refine ⟨st, [], rfl, rfl, rfl, rfl, hgood, ?_, ?_, ?_⟩
    · intro a; simp
    · intro g hg; cases hg
    · intro u2 t2 _; rfl
  | cons g0 rest ih =>
    intro st hgood hgs hne
    have hg0 : g0 ∈ st.groups := hgs g0 (List.mem_cons_self g0 rest)
    have hne0 : memberNames st g0 ≠ [] :=
      hne g0 (List.mem_cons_self g0 rest)
    have hwf : rowsWF st.assignedGroups st.nextId := hgood.1.2
    have hinv : countActive st.assignedGroups u g0 ≤ 1 := hgood.2.2 u g0
    have hgood1 : GoodStore (upsertGroupAssignment st u g0 w now) :=
      good_upsertGroup st u g0 w now hgood
    obtain ⟨stG, ns, hloop, hA, hI, hGr, hGood, hmem, hcnt, hframe⟩ :=
      ih (upsertGroupAssignment st u g0 w now) hgood1
        (fun g hg => hgs g (List.mem_cons_of_mem g0 hg))
        (fun g hg => hne g (List.mem_cons_of_mem g0 hg))
    have hnames : getGroupAgentNames (upsertGroupAssignment st u g0 w now) g0
        = some (dedupe (memberNames st g0)) := by
      unfold getGroupAgentNames
      rw [memberNames_upsertGroup]
      rw [if_neg ?_]
      intro hc
      exact hne0 (List.isEmpty_iff.mp hc)
    have hcnt0 : countActive
        (upsertGroupAssignment st u g0 w now).assignedGroups u g0 = 1 := by
      have hs := upsert_count_same st.assignedGroups st.nextId u g0 w now
        hwf hinv
      rw [hact] at hs
      simpa using hs
    refine ⟨stG, dedupe (memberNames st g0) ++ ns, ?_, hA, hI, hGr, hGood,
      ?_, ?_, ?_⟩
    · simp only [assignGroupsLoop, if_pos hg0, hnames, hloop]
    · intro a
      rw [List.mem_append, mem_dedupe, hmem a]
      constructor
      · rintro (h | ⟨g, hg, h⟩)
        · exact ⟨g0, List.mem_cons_self g0 rest, h⟩
        · exact ⟨g, List.mem_cons_of_mem g0 hg, h⟩
      · rintro ⟨g, hg, h⟩
        rcases List.mem_cons.mp hg with rfl | hg
        · exact Or.inl h
        · exact Or.inr ⟨g, hg, h⟩
    · intro g hg
      by_cases hgr : g ∈ rest
      · exact hcnt g hgr
      · rcases List.mem_cons.mp hg with rfl | hg2
        · rw [hframe u g (fun hc => hgr hc.2)]
          exact hcnt0
        · exact absurd hg2 hgr
    · intro u2 t2 hne2
      rw [hframe u2 t2 fun hc => hne2 ⟨hc.1, List.mem_cons_of_mem g0 hc.2⟩]
      exact upsert_count_other st.assignedGroups st.nextId u g0 w now u2 t2
        hwf fun hc => hne2 ⟨hc.1.symm, hc.2 ▸ List.mem_cons_self g0 rest⟩

/-- Claim C7: assignAgentGroupsByEmail upserts one AssignedGroup row per
resolved selector (each ends with exactly one active row) and materializes
exactly the deduplicated union of the member agents of all resolved
groups in one bulk direct-assignment upsert: afterwards every agent in the
union has exactly one active DirectAssignment row (never duplicates, even
when it belongs to several of the groups), and pairs outside the union are
untouched. -/
theorem claim7_assign_groups_union (st : Store) (u : String)
    (gs : List String) (sAt : Option Time) (eAt : Option (Option Time))
    (dD : Option Int) (now : Time) (hgood : GoodStore st)
    (hgs : ∀ g ∈ gs, g ∈ st.groups)
    (hne : ∀ g ∈ gs, memberNames st g ≠ []) (hgs0 : gs ≠ []) :
    (∀ g ∈ gs, countActive
        (assignGroups st u gs ⟨sAt, eAt, dD, none⟩ now).assignedGroups u g
      = 1)
    ∧ (∀ a, (∃ g ∈ gs, a ∈ memberNames st g) →
        countActive
          (assignGroups st u gs ⟨sAt, eAt, dD, none⟩ now).assignedAgents u a
        = 1)
    ∧ (∀ u2 a, ¬(u2 = u ∧ ∃ g ∈ gs, a ∈ memberNames st g) →
        countActive
          (assignGroups st u gs ⟨sAt, eAt, dD, none⟩ now).assignedAgents u2 a
        = countActive st.assignedAgents u2 a)
    ∧ (∀ u2 t2, countActive
        (assignGroups st u gs ⟨sAt, eAt, dD, none⟩ now).assignedAgents u2 t2
      ≤ 1) := by
  have hact : (resolvePayload ⟨sAt, eAt, dD, none⟩ now).isActive = none := rfl
  obtain ⟨stG, ns, hloop, hA, hI, hGr, hGood, hmem, hcnt, hframe⟩ :=
    assignGroupsLoop_ok u (resolvePayload ⟨sAt, eAt, dD, none⟩ now) now hact
      gs st hgood hgs hne
  obtain ⟨g0, hg0⟩ := List.exists_mem_of_ne_nil gs hgs0
  have hns_ne : ∃ a, a ∈ ns := by
    obtain ⟨a, ha⟩ := List.exists_mem_of_ne_nil _ (hne g0 hg0)
    exact ⟨a, (hmem a).mpr ⟨g0, hg0, ha⟩⟩
  have hde : ¬(dedupe ns).isEmpty = true := by
    obtain ⟨a, ha⟩ := hns_ne
    intro hc
    have h1 := List.isEmpty_iff.mp hc
    have h2 : a ∈ dedupe ns := (mem_dedupe ns a).mpr ha
    rw [h1] at h2
    cases h2
  have hEq : assignGroups st u gs ⟨sAt, eAt, dD, none⟩ now
      = assignAgents stG u (dedupe ns) ⟨sAt, eAt, dD, none⟩ now := by
    simp only [assignGroups, hloop, if_neg hde]
  rw [hEq]
  refine ⟨?_, ?_, ?_, ?_⟩
  · intro g hg
    have hgl : countActive
        (((dedupe ns).foldl
          (assignStep u (resolvePayload ⟨sAt, eAt, dD, none⟩ now) now)
          stG).assignedGroups) u g = 1 := by
      rw [foldl_assign_groups_eq]
      exact hcnt g hg
    exact hgl
  · intro a ha
    have hin : a ∈ dedupe ns := (mem_dedupe ns a).mpr ((hmem a).mpr ha)
    exact foldl_assign_count_mem u
      (resolvePayload ⟨sAt, eAt, dD, none⟩ now) now hact (dedupe ns) stG
      hGood a hin
  · intro u2 a hno
    have hother : ¬(u2 = u ∧ a ∈ dedupe ns) := by
      rintro ⟨rfl, hc⟩
      exact hno ⟨rfl, (hmem a).mp ((mem_dedupe ns a).mp hc)⟩
    have hfold := foldl_assign_count_other u
      (resolvePayload ⟨sAt, eAt, dD, none⟩ now) now (dedupe ns) stG hGood
      u2 a hother
    have hres : countActive
        (assignAgents stG u (dedupe ns) ⟨sAt, eAt, dD, none⟩
          now).assignedAgents u2 a
        = countActive stG.assignedAgents u2 a := hfold
    rw [hres, hA]
  · intro u2 t2
    exact (good_assignAgents stG u (dedupe ns) ⟨sAt, eAt, dD, none⟩ now
      hGood).2.1 u2 t2

def c7store : Store :=
  { assignedAgents := [], assignedGroups := [], groups := ["G1", "G2"],
    groupItems :=
      [⟨"G1", "JIM"⟩, ⟨"G1", "ALEX"⟩, ⟨"G2", "ALEX"⟩, ⟨"G2", "MAX"⟩],
    nextId := 0 }

/-- Witness for C7: assigning groups G1 = {JIM, ALEX} and G2 = {ALEX, MAX}
to user u1 yields exactly one active AssignedGroup row per group and one
active DirectAssignment row per union member, with ALEX (in both groups)
getting a single row. -/
theorem claim7_assign_groups_union_witness :
    (∀ g ∈ ["G1", "G2"], countActive
        (assignGroups c7store "u1" ["G1", "G2"] ⟨none, none, none, none⟩
          0).assignedGroups "u1" g
      = 1)
    ∧ (∀ a, (∃ g ∈ ["G1", "G2"], a ∈ memberNames c7store g) →
        countActive
          (assignGroups c7store "u1" ["G1", "G2"] ⟨none, none, none, none⟩
            0).assignedAgents "u1" a
        = 1)
    ∧ (∀ u2 a, ¬(u2 = "u1" ∧ ∃ g ∈ ["G1", "G2"], a ∈ memberNames c7store g)
        → countActive
            (assignGroups c7store "u1" ["G1", "G2"] ⟨none, none, none, none⟩
              0).assignedAgents u2 a
          = countActive c7store.assignedAgents u2 a)
    ∧ (∀ u2 t2, countActive
        (assignGroups c7store "u1" ["G1", "G2"] ⟨none, none, none, none⟩
          0).assignedAgents u2 t2
      ≤ 1) :=
  claim7_assign_groups_union c7store "u1" ["G1", "G2"] none none none 0
    ⟨⟨⟨List.nodup_nil, fun r hr => absurd hr (List.not_mem_nil r)⟩,
      ⟨List.nodup_nil, fun r hr => absurd hr (List.not_mem_nil r)⟩⟩,
     fun u a => by simp [countActive, c7store],
     fun u g => by simp [countActive, c7store]⟩
    (by decide) (by decide) (by decide)
